import Mathlib

/-!
# QVuew-Backend queue engine: a shallow embedding

This file embeds the queue scheduling and mutation engine of the
QVuew backend (`src/routes/queue.js`) in Lean 4 and settles the
frozen claims about it.  Data is modelled record-for-record after the
Mongoose schemas; the write-path handlers (`/enqueue`,
`/restructure-queue`, `/queue-action`, `/update-rating`) are
translated statement-for-statement into pure functions over an
explicit database (a list of queue entries).  Times are UTC
milliseconds as `Int`; MongoDB sessions become explicit
read-then-replace on the list; JavaScript's stable `Array.sort` with
a numeric comparator is modelled by `List.insertionSort` over the
relation `cmp a b ≤ 0` (a stable sort, which is what ECMAScript
guarantees for a consistent comparator).
-/

namespace QVuew

/-- `status` enum of the queue schema (`queue.js` line 1048). -/
inductive QStatus
  | in_queue | hold | completed | skipped | removed
deriving DecidableEq, Repr

/-- `preference` enum (`queue.js` line 1037). -/
inductive Pref
  | ANY | SPECIFIC
deriving DecidableEq, Repr

/-- `userType` enum (`queue.js` line 1036). -/
inductive UserKind
  | normal | manual
deriving DecidableEq, Repr

/-- `gender` enum (`queue.js` line 1038). -/
inductive Gender
  | male | female | child
deriving DecidableEq, Repr

/-- `action` enum of the update-history schema (`queue.js` line 1003). -/
inductive HAction
  | skip | hold | remove | next | add_time | unhold | edit | undo
deriving DecidableEq, Repr

/-- `source` enum of the update-history schema (`queue.js` line 1017). -/
inductive SourceKind
  | user | vendor
deriving DecidableEq, Repr

/-- Helper-connection status inside `Vendor.connectedHelpers`. -/
inductive HelperStatus
  | pending | accepted | rejected | removed
deriving DecidableEq, Repr

/-- `accountType` of a vendor record. -/
inductive AccountType
  | owner | helper
deriving DecidableEq, Repr

/-- One element of the `updateHistory` array (`updateHistorySchema`). -/
structure HistoryEvent where
  action : HAction
  source : SourceKind
  timestamp : Int
  previousPosition : Option Int := none
  newPosition : Option Int := none
  addedTime : Option Int := none
  estimatedWait : Option Int := none
  serviceId : Option String := none
  businessId : Option String := none
  newlyAssignedHelperId : Option String := none
deriving DecidableEq, Repr

/-- A queue entry (`queueSchema`, `queue.js` lines 1028-1059).
`createdAt` is the mongoose `timestamps` field used by the
time-window filters. -/
structure QueueEntry where
  id : String
  userId : Option String := none
  manualUserId : Option String := none
  vendorId : String
  helperId : String
  serviceId : String
  userType : UserKind
  preference : Pref
  gender : Gender
  joiningPosition : Int
  currentPosition : Int
  joiningTime : Int
  estimatedServiceStartTime : Int
  estimatedWait : Int
  status : QStatus
  updateHistory : List HistoryEvent := []
  total : Int
  rating : Option Int := none
  notes : Option String := none
  createdAt : Int
deriving DecidableEq, Repr

/-- One element of `Vendor.connectedHelpers`. -/
structure ConnectedHelper where
  helperId : String
  status : HelperStatus
  active : Bool
  associatedServices : List String
deriving DecidableEq, Repr

/-- A vendor record (business owner or helper). -/
structure Vendor where
  id : String
  accountType : AccountType
  isDeleted : Bool := false
  isSuspended : Bool := false
  active : Bool := true
  connectedHelpers : List ConnectedHelper := []
deriving DecidableEq, Repr

/-- A `RateCard` service record: duration in minutes, `rate` is the price. -/
structure RateCard where
  id : String
  createdBy : String
  duration : Int
  rate : Int
  isDeleted : Bool := false
deriving DecidableEq, Repr

/-- A registered `User` record (the fields the queue routes read). -/
structure UserRec where
  id : String
  isDeleted : Bool := false
  isSuspended : Bool := false
  receiveNotifications : Bool := true
  pushToken : Option String := none
deriving DecidableEq, Repr

/-- A `ManualAddUsers` record. -/
structure ManualUser where
  id : String
  vendorId : String
  isDeleted : Bool := false
deriving DecidableEq, Repr

/-- Whether a status is one of the live ones counted by the lane
queries: `{ $in: ["in_queue", "hold", "skipped"] }`. -/
def isLive (s : QStatus) : Bool :=
  s == .in_queue || s == .hold || s == .skipped

/-- `Queue.countDocuments({vendorId, helperId, status: {$in: live}})`. -/
def countLive (db : List QueueEntry) (vendorId helperId : String) : Nat :=
  (db.filter fun q =>
    q.vendorId == vendorId && q.helperId == helperId && isLive q.status).length

/-- JavaScript's `Array.prototype.sort` with numeric comparator `cmp`,
modelled as the stable sort by the total preorder `cmp a b ≤ 0`. -/
def jsSortBy (cmp : α → α → Int) (l : List α) : List α :=
  l.insertionSort fun a b => cmp a b ≤ 0

/-! ## Enqueue (`POST /enqueue`, `queue.js` lines 1094-1302) -/

/-- A line item of the `services` array of an enqueue request. -/
structure EnqueueItem where
  serviceId : String
  gender : Gender
  preference : Pref
  helperId : Option String := none
deriving DecidableEq, Repr

/-- The "find fastest helper" loop of the ANY branch
(`queue.js` lines 1214-1243): iterate `connectedHelpers` filtered to
`accepted ∧ active`, skip helpers whose `associatedServices` lack the
service, track the strictly smallest `queueLength * duration`
(`minWaitTime` starts at `Infinity`, so ties keep the earlier
helper in array order). -/
def selectFastestHelper (db : List QueueEntry) (vendor : Vendor)
    (serviceId : String) (duration : Int) : Option String :=
  let activeHelpers := vendor.connectedHelpers.filter fun ch =>
    ch.status == .accepted && ch.active
  let step := fun (acc : Option (String × Int)) (ch : ConnectedHelper) =>
    if ch.associatedServices.contains serviceId then
      let waitTime : Int := (countLive db vendor.id ch.helperId : Int) * duration
      match acc with
      | none => some (ch.helperId, waitTime)
      | some (_, best) =>
          if waitTime < best then some (ch.helperId, waitTime) else acc
    else acc
  (activeHelpers.foldl step none).map Prod.fst

/-- Processing of one line item inside the enqueue transaction
(`queue.js` lines 1183-1279).  `db` is the committed queue collection:
the loop's `countDocuments` calls see only committed entries, never the
entries built earlier in the same request (those sit in the in-memory
`queueEntries` array until `insertMany` after the loop). -/
def enqueueOne (db : List QueueEntry) (vendor : Vendor)
    (helperVendors : List Vendor) (rateCards : List RateCard)
    (userId : Option String) (manualUserId : Option String)
    (userType : UserKind) (now : Int) (newId : String)
    (item : EnqueueItem) : Except String QueueEntry := do
  let service ← match rateCards.find? (fun s =>
      s.id == item.serviceId && !s.isDeleted && s.createdBy == vendor.id) with
    | some s => Except.ok s
    | none => Except.error "service invalid or not found"
  let selectedHelperId ←
    if item.preference == .SPECIFIC && item.helperId.isSome then
      match item.helperId with
      | some hid =>
        let helperOk := helperVendors.any fun h =>
          h.id == hid && h.accountType == .helper && !h.isDeleted && !h.isSuspended
        if helperOk && vendor.connectedHelpers.any (fun ch =>
            ch.helperId == hid && ch.status == .accepted && ch.active) then
          Except.ok hid
        else Except.error "helper not active or authorized"
      | none => Except.error "helper not active or authorized"
    else
      match selectFastestHelper db vendor item.serviceId service.duration with
      | some hid => Except.ok hid
      | none => Except.error "no active helpers available"
  let queueLength := countLive db vendor.id selectedHelperId
  let joiningPosition : Int := (queueLength : Int) + 1
  let estimatedWait : Int := (queueLength : Int) * service.duration
  Except.ok
    { id := newId
      userId := if userType == .manual then none else userId
      manualUserId := if userType == .manual then manualUserId else none
      vendorId := vendor.id
      helperId := selectedHelperId
      serviceId := item.serviceId
      userType := userType
      preference := item.preference
      gender := item.gender
      joiningPosition := joiningPosition
      currentPosition := joiningPosition
      joiningTime := now
      estimatedWait := estimatedWait
      estimatedServiceStartTime := now + estimatedWait * 60000
      total := service.rate
      status := .in_queue
      createdAt := now }

/-- The `/enqueue` transaction (`queue.js` lines 1125-1302): validate
vendor and user, build every entry against the committed `db`, then
`insertMany` them atomically.  On success returns the new committed
database together with the created entries. -/
def enqueue (db : List QueueEntry) (vendors : List Vendor)
    (users : List UserRec) (manualUsers : List ManualUser)
    (rateCards : List RateCard) (vendorId : String)
    (services : List EnqueueItem) (userType : UserKind)
    (manualUserId : Option String) (callerUserId : String)
    (now : Int) (freshIds : List String) :
    Except String (List QueueEntry × List QueueEntry) := do
  let vendor ← match vendors.find? (fun v =>
      v.id == vendorId && v.accountType == .owner && !v.isDeleted &&
      !v.isSuspended && v.active) with
    | some v => Except.ok v
    | none => Except.error "Vendor is not an active owner or not found"
  if userType == .manual then
    match manualUserId with
    | none => Except.error "Manual user ID required for manual user type"
    | some mid =>
      if (manualUsers.find? (fun m =>
          m.id == mid && !m.isDeleted && m.vendorId == vendorId)).isNone then
        Except.error "Invalid or unauthorized manual user"
      else pure ()
  else
    match users.find? (fun u =>
        u.id == callerUserId && !u.isDeleted && !u.isSuspended) with
    | none => Except.error "User is not active or not found"
    | some _ =>
      if manualUserId.isSome then
        Except.error "manualUserId must not be provided for normal user type"
      else pure ()
  let entries ← (services.zip (freshIds.take services.length)).mapM
    fun (item, newId) =>
      enqueueOne db vendor vendors rateCards (some callerUserId)
        manualUserId userType now newId item
  Except.ok (db ++ entries, entries)

/-! ## Restructure (`POST /restructure-queue`, `queue.js` lines 1305-1672) -/

/-- The in-bucket comparator (`queue.js` lines 1529-1535): currently
serving (old position 1, `in_queue`) first, then `in_queue` before
`hold`/`skipped`, then ascending `joiningTime`. -/
def bucketCmp (a b : QueueEntry) : Int :=
  if a.currentPosition == 1 && a.status == .in_queue then -1
  else if b.currentPosition == 1 && b.status == .in_queue then 1
  else if a.status == .in_queue && b.status != .in_queue then -1
  else if b.status == .in_queue && a.status != .in_queue then 1
  else a.joiningTime - b.joiningTime

/-- Mongo's `.sort({ joiningTime: 1 })` comparator. -/
def jtCmp (a b : QueueEntry) : Int := a.joiningTime - b.joiningTime

/-- Per-helper assignment buckets (`helperAssignments`), keyed in the
insertion order of `capableHelpers`, plus the `capableHelpers` array
itself, which the flexible loop mutates via in-place `sort`. -/
structure Buckets where
  order : List ConnectedHelper
  assign : List (String × List QueueEntry)
deriving Repr

def bucketSize (assign : List (String × List QueueEntry)) (hid : String) : Nat :=
  ((assign.find? fun p => p.1 == hid).map fun p => p.2.length).getD 0

def bucketPush (assign : List (String × List QueueEntry)) (hid : String)
    (q : QueueEntry) : List (String × List QueueEntry) :=
  assign.map fun p => if p.1 == hid then (p.1, p.2 ++ [q]) else p

/-- One step of the restructure's classification `for` loop
(`queue.js` lines 1452-1477).  Note the `else if` chain: a SPECIFIC
entry on hold is classified SPECIFIC, not hold. -/
def classifyStep (capable : List ConnectedHelper)
    (acc : List QueueEntry × List QueueEntry × List QueueEntry × List QueueEntry)
    (q : QueueEntry) :
    List QueueEntry × List QueueEntry × List QueueEntry × List QueueEntry :=
  let (serving, specific, holdQ, flex) := acc
  if q.currentPosition == 1 && q.status == .in_queue then
    (serving ++ [q], specific, holdQ, flex)
  else if q.preference == .SPECIFIC then
    if capable.any (fun h => h.helperId == q.helperId) then
      (serving, specific ++ [q], holdQ, flex)
    else
      (serving, specific, holdQ, flex ++ [q])
  else if q.status == .hold then
    (serving, specific, holdQ ++ [q], flex)
  else
    (serving, specific, holdQ, flex ++ [q])

/-- Step 4 of the restructure: classify the entries of one service
group, in order, into currently-serving / SPECIFIC / hold /
flexible. -/
def classifyGroup (capable : List ConnectedHelper) (group : List QueueEntry) :
    List QueueEntry × List QueueEntry × List QueueEntry × List QueueEntry :=
  group.foldl (classifyStep capable) ([], [], [], [])

/-- Pin one currently-serving or hold entry to its current helper if
that helper is capable, else to `capableHelpers[0]`
(`queue.js` lines 1480-1491 and 1499-1507). -/
def pushPinned (capable : List ConnectedHelper) (assign : List (String × List QueueEntry))
    (q : QueueEntry) : List (String × List QueueEntry) :=
  if capable.any (fun h => h.helperId == q.helperId) then
    bucketPush assign q.helperId q
  else
    match capable with
    | [] => assign
    | h :: _ => bucketPush assign h.helperId q

/-- One iteration of the flexible-distribution loop
(`queue.js` lines 1512-1521): sort the (mutable!) `capableHelpers`
array by current bucket size — JavaScript's sort is stable, so ties
keep the array's current order — and push the entry onto the first
helper. -/
def flexStep (bs : Buckets) (q : QueueEntry) : Buckets :=
  let sortedHelpers := jsSortBy
    (fun a b => (bucketSize bs.assign a.helperId : Int) -
                (bucketSize bs.assign b.helperId : Int)) bs.order
  match sortedHelpers with
  | [] => { order := sortedHelpers, assign := bs.assign }
  | t :: _ => { order := sortedHelpers
                assign := bucketPush bs.assign t.helperId q }

/-- The flexible-distribution loop over the FCFS-ordered flexible
entries. -/
def assignFlexibles (bs : Buckets) (flex : List QueueEntry) : Buckets :=
  flex.foldl flexStep bs

/-- The `edit` history event appended by the restructure update
(`queue.js` lines 1565-1576). -/
def editEvent (now : Int) (vendorId sid : String) (oldPos newPos newWait : Int)
    (oldHelper newHelper : String) : HistoryEvent :=
  { action := .edit
    source := .vendor
    timestamp := now
    previousPosition := some oldPos
    newPosition := some newPos
    estimatedWait := some newWait
    serviceId := some sid
    businessId := some vendorId
    newlyAssignedHelperId := if newHelper != oldHelper then some newHelper else none }

/-- Recompute one entry at its assigned bucket position
(`queue.js` lines 1537-1579): new wait `(newPosition − 1) · duration`;
write only when helper, position or wait changed, appending the `edit`
event.  Returns the resulting entry and the `hasChanges` flag. -/
def assignEntry (now : Int) (vendorId sid : String) (d : Int) (hid : String)
    (pos : Int) (q : QueueEntry) : QueueEntry × Bool :=
  let newWait := (pos - 1) * d
  let hasChanges := q.currentPosition != pos || q.helperId != hid ||
    q.estimatedWait != newWait
  if hasChanges then
    ({ q with helperId := hid
              currentPosition := pos
              estimatedWait := newWait
              estimatedServiceStartTime := now + newWait * 60000
              updateHistory := q.updateHistory ++
                [editEvent now vendorId sid q.currentPosition pos newWait
                  q.helperId hid] }, true)
  else (q, false)

/-- The `let position = 1; … const newPosition = position++ …` loop
over one sorted bucket. -/
def assignFrom (now : Int) (vendorId sid : String) (d : Int) (hid : String) :
    Int → List QueueEntry → List (QueueEntry × Bool)
  | _, [] => []
  | pos, q :: rest =>
    assignEntry now vendorId sid d hid pos q ::
      assignFrom now vendorId sid d hid (pos + 1) rest

/-- Sort one helper's bucket and assign sequential positions 1, 2, 3, …
(`queue.js` lines 1524-1546). -/
def assignBucket (now : Int) (vendorId sid : String) (d : Int) (hid : String)
    (entries : List QueueEntry) : List (QueueEntry × Bool) :=
  assignFrom now vendorId sid d hid 1 (jsSortBy bucketCmp entries)

/-- Process one service group: capable helpers, classification,
pinning, flexible distribution, then per-bucket position assignment in
the key order of `helperAssignments` (insertion order, i.e. the
original `capableHelpers` order). -/
def processGroup (now : Int) (vendorId : String)
    (activeHelpers : List ConnectedHelper) (sid : String) (d : Int)
    (group : List QueueEntry) : List (QueueEntry × Bool) :=
  let capable := activeHelpers.filter fun h => h.associatedServices.contains sid
  if capable.isEmpty then []
  else
    let init : List (String × List QueueEntry) := capable.map fun h => (h.helperId, [])
    let cls := classifyGroup capable group
    let a1 := cls.1.foldl (pushPinned capable) init
    let a2 := cls.2.1.foldl (fun a q => bucketPush a q.helperId q) a1
    let a3 := cls.2.2.1.foldl (pushPinned capable) a2
    let bs := assignFlexibles { order := capable, assign := a3 } cls.2.2.2
    bs.assign.foldl (fun acc p => acc ++ assignBucket now vendorId sid d p.1 p.2) []

/-- `queuesByService` grouping keys in first-occurrence order (`for…in`
over an object whose keys were inserted in list order). -/
def groupKeys (l : List QueueEntry) : List String :=
  l.foldl (fun ks q => if ks.contains q.serviceId then ks else ks ++ [q.serviceId]) []

/-- Replace every database entry for which an updated version with the
same `_id` was saved (`Queue.findOne({_id}).save()` inside the
transaction). -/
def applyUpdates (db ups : List QueueEntry) : List QueueEntry :=
  db.map fun e => (ups.find? fun u => u.id == e.id).getD e

/-- A queued restructure notification (`notifications.push`,
`queue.js` lines 1588-1597). -/
structure RNotif where
  userId : String
  oldPosition : Int
  newPosition : Int
  estimatedWait : Int
  status : QStatus
  helperChanged : Bool
deriving DecidableEq, Repr

/-- Outcome of the `/restructure-queue` handler. -/
inductive RestructureResult
  /-- Vendor missing/inactive, or a populated `serviceId` resolves to
  null and the handler crashes into its catch: transaction aborted,
  HTTP 500, database unchanged. -/
  | error500
  /-- No active helpers: pause notifications are sent, the (empty)
  transaction commits, HTTP 400 (`queue.js` lines 1345-1391). -/
  | pausedNoHelpers
  /-- Committed run: new database, `updatedCount`, the per-entry
  assignment results (entry value after the run, `hasChanges` flag),
  and the queued notifications. -/
  | ok (db : List QueueEntry) (updatedCount : Nat)
       (assigned : List (QueueEntry × Bool)) (notifs : List RNotif)
deriving Repr

/-- Material-change notification collection for one updated entry
(`queue.js` lines 1582-1598); `old` is the entry before the run,
`new` after. -/
def notifOf (old new : QueueEntry) : Option RNotif :=
  match old.userId with
  | some uid =>
    if old.userType == .normal &&
       (old.currentPosition != new.currentPosition ||
        new.helperId != old.helperId ||
        (old.estimatedWait - new.estimatedWait).natAbs ≥ 5) then
      some { userId := uid
             oldPosition := old.currentPosition
             newPosition := new.currentPosition
             estimatedWait := new.estimatedWait
             status := old.status
             helperChanged := new.helperId != old.helperId }
    else none
  | none => none

/-- The restructure's entry query: live entries of the vendor created
within the window (`queue.js` lines 1394-1398). -/
def windowFilter (vendorId : String) (startTime endTime : Int)
    (db : List QueueEntry) : List QueueEntry :=
  db.filter fun q =>
    q.vendorId == vendorId && isLive q.status &&
    startTime ≤ q.createdAt && q.createdAt ≤ endTime

/-- The `/restructure-queue` handler (`queue.js` lines 1313-1659).
Loads the vendor, collects active helpers, loads the live entries of
the window sorted FCFS, groups them by service and processes every
group, then commits the updates.  `rateCards` models the `populate`
of `serviceId`. -/
def restructure (db : List QueueEntry) (vendors : List Vendor)
    (rateCards : List RateCard) (vendorId : String)
    (startTime endTime now : Int) : RestructureResult :=
  match vendors.find? (fun v =>
      v.id == vendorId && v.accountType == .owner && !v.isDeleted &&
      !v.isSuspended && v.active) with
  | none => .error500
  | some vendor =>
    let activeHelpers := vendor.connectedHelpers.filter fun ch =>
      ch.status == .accepted && ch.active
    if activeHelpers.isEmpty then .pausedNoHelpers
    else
      let allQueues := jsSortBy jtCmp (windowFilter vendorId startTime endTime db)
      if allQueues.isEmpty then .ok db 0 [] []
      else if allQueues.any (fun q => (rateCards.find? fun s => s.id == q.serviceId).isNone)
      then .error500
      else
        let assigned := (groupKeys allQueues).foldl
          (fun acc sid =>
            let group := allQueues.filter fun q => q.serviceId == sid
            let d := ((rateCards.find? fun s => s.id == sid).map RateCard.duration).getD 0
            acc ++ processGroup now vendorId activeHelpers sid d group)
          []
        let changed := (assigned.filter fun p => p.2).map Prod.fst
        let notifs := (assigned.filter fun p => p.2).filterMap fun p =>
          match allQueues.find? fun q => q.id == p.1.id with
          | some old => notifOf old p.1
          | none => none
        .ok (applyUpdates db changed) changed.length assigned notifs

/-! ## Queue action (`POST /queue-action`, `queue.js` lines 2700-3427) -/

/-- Observable side effects of the action transaction, in program
order: document saves, the transaction commit, outbound push
notifications, and the fire-and-forget restructure trigger.  A run
that throws ends with no `commitTx` (the transaction aborts). -/
inductive Effect
  | save (id : String)
  | commitTx
  | notify (dataType : String)
  | triggerRestructure
deriving DecidableEq, Repr

/-- Result of the `/queue-action` handler: HTTP status, the `success`
flag, the committed database (unchanged when the transaction aborts),
and the effect trace. -/
structure QAResult where
  httpStatus : Nat
  success : Bool
  db : List QueueEntry
  trace : List Effect
deriving Repr

/-- The `sendNotification` helper (`queue.js` lines 2767-2797): only
for normal registered users whose record has `receiveNotifications`
and a push token. -/
def qaNotify (users : List UserRec) (q : QueueEntry) (dataType : String) :
    List Effect :=
  match q.userId with
  | some uid =>
    if q.userType == .normal then
      match users.find? fun u => u.id == uid with
      | some u => if u.receiveNotifications && u.pushToken.isSome then
          [.notify dataType] else []
      | none => []
    else []
  | none => []

/-- `Queue.findOne({vendorId, helperId, currentPosition: {$gt: pos},
status: "in_queue"}).sort({currentPosition: 1})` (`queue.js` lines
2802-2809): the first entry, in ascending position order, strictly
behind `pos` in the same lane. -/
def findNextPerson (db : List QueueEntry) (vendorId helperId : String)
    (pos : Int) : Option QueueEntry :=
  (jsSortBy (fun a b => a.currentPosition - b.currentPosition)
    (db.filter fun q =>
      q.vendorId == vendorId && q.helperId == helperId &&
      pos < q.currentPosition && q.status == .in_queue)).head?

/-- `Queue.findOne({vendorId, helperId, currentPosition: prev,
status: "in_queue"})` for undo-of-skip (`queue.js` lines 3118-3123). -/
def findSwappedPerson (db : List QueueEntry) (vendorId helperId : String)
    (pos : Int) : Option QueueEntry :=
  db.find? fun q =>
    q.vendorId == vendorId && q.helperId == helperId &&
    q.currentPosition == pos && q.status == .in_queue

/-- Replace one entry (matched by `_id`) in the database. -/
def saveEntry (db : List QueueEntry) (e : QueueEntry) : List QueueEntry :=
  db.map fun o => if o.id == e.id then e else o

/-- An aborted run: HTTP 500, database unchanged, trace as recorded up
to the throw (the transaction never commits). -/
def qaError (db : List QueueEntry) (tr : List Effect) : QAResult :=
  { httpStatus := 500, success := false, db := db, trace := tr }

/-- A shared history push (`updateHistory.push({action, source,
timestamp, previousPosition, newPosition, estimatedWait})`). -/
def histEvent (a : HAction) (src : SourceKind) (now prevPos newPos wait : Int) :
    HistoryEvent :=
  { action := a, source := src, timestamp := now
    previousPosition := some prevPos, newPosition := some newPos
    estimatedWait := some wait }

/-- The `/queue-action` handler (`queue.js` lines 2713-3426):
authorization, then the per-action branch, each of which mutates the
entry, saves, commits (the `skip` branches instead fall through to the
common commit at line 3408 *after* sending their notification), and
notifies.  `addedTime` is the optional validated body field. -/
def queueAction (db : List QueueEntry) (vendors : List Vendor)
    (users : List UserRec) (rateCards : List RateCard)
    (queueId : String) (action : HAction) (addedTime : Option Int)
    (callerUserId : String) (now : Int) : QAResult :=
  -- express-validator: action must be one of the seven, addedTime ≥ 1
  if action == .edit then
    { httpStatus := 400, success := false, db := db, trace := [] }
  else if addedTime.getD 1 < 1 then
    { httpStatus := 400, success := false, db := db, trace := [] }
  else
  match db.find? fun q => q.id == queueId with
  | none => qaError db []
  | some queue =>
  if queue.status == .removed then qaError db [] else
  match vendors.find? fun v => v.id == queue.vendorId with
  | none => qaError db []
  | some vendor =>
  if vendor.isDeleted || vendor.isSuspended then qaError db [] else
  let isUser := queue.userId == some callerUserId
  let isOwner := vendor.accountType == .owner && vendor.id == callerUserId
  let isHelper := vendor.accountType == .owner && vendor.connectedHelpers.any
    fun h => h.helperId == callerUserId && h.status == .accepted && h.active
  let authorized := (isUser && action == .remove) || isOwner || isHelper
  if !authorized then qaError db [] else
  let source : SourceKind := if isUser then .user else .vendor
  match action with
  | .skip =>
    match findNextPerson db queue.vendorId queue.helperId queue.currentPosition with
    | none => qaError db []
    | some nextPerson =>
      match rateCards.find? fun s => s.id == queue.serviceId with
      | none => qaError db []   -- populate gave null: `.duration` throws
      | some service =>
        let tempPosition := queue.currentPosition
        let qPos := nextPerson.currentPosition
        let nPos := tempPosition
        let qWait := (qPos - 1) * service.duration
        let nWait := (nPos - 1) * service.duration
        let queue' := { queue with
          currentPosition := qPos
          estimatedWait := qWait
          estimatedServiceStartTime := now + qWait * 60000
          updateHistory := queue.updateHistory ++
            [histEvent .skip source now tempPosition qPos qWait] }
        let next' := { nextPerson with
          currentPosition := nPos
          estimatedWait := nWait
          estimatedServiceStartTime := now + nWait * 60000
          updateHistory := nextPerson.updateHistory ++
            [histEvent .skip source now nPos tempPosition nWait] }
        let db1 := saveEntry (saveEntry db next') queue'
        -- notification sent here, the commit only happens at the
        -- common fall-through after the if/else chain (line 3408)
        let tr := [.save next'.id, .save queue'.id] ++
          qaNotify users queue "queue_skip" ++ [.commitTx]
        { httpStatus := 200, success := true, db := db1, trace := tr }
  | .hold =>
    if queue.status == .hold then qaError db [] else
    let queue' := { queue with
      status := .hold
      updateHistory := queue.updateHistory ++
        [histEvent .hold source now queue.currentPosition queue.currentPosition
          queue.estimatedWait] }
    { httpStatus := 200, success := true, db := saveEntry db queue'
      trace := [.save queue'.id, .commitTx] ++ qaNotify users queue "queue_hold" ++
        [.triggerRestructure] }
  | .unhold =>
    if queue.status != .hold then qaError db [] else
    let queue' := { queue with
      status := .in_queue
      updateHistory := queue.updateHistory ++
        [histEvent .unhold source now queue.currentPosition queue.currentPosition
          queue.estimatedWait] }
    { httpStatus := 200, success := true, db := saveEntry db queue'
      trace := [.save queue'.id, .commitTx] ++ qaNotify users queue "queue_unhold" ++
        [.triggerRestructure] }
  | .remove =>
    let queue' := { queue with
      status := .removed
      updateHistory := queue.updateHistory ++
        [histEvent .remove source now queue.currentPosition queue.currentPosition
          queue.estimatedWait] }
    { httpStatus := 200, success := true, db := saveEntry db queue'
      trace := [.save queue'.id, .commitTx] ++ qaNotify users queue "queue_remove" ++
        [.triggerRestructure] }
  | .next =>
    if queue.currentPosition != 1 then qaError db [] else
    if queue.status == .completed then qaError db [] else
    let queue' := { queue with
      status := .completed
      updateHistory := queue.updateHistory ++
        [histEvent .next source now queue.currentPosition queue.currentPosition
          queue.estimatedWait] }
    { httpStatus := 200, success := true, db := saveEntry db queue'
      trace := [.save queue'.id, .commitTx] ++ qaNotify users queue "queue_next" ++
        [.triggerRestructure] }
  | .add_time =>
    match addedTime with
    | none => qaError db []
    | some t =>
      let queue' := { queue with
        estimatedWait := queue.estimatedWait + t
        estimatedServiceStartTime := queue.estimatedServiceStartTime + t * 60000
        updateHistory := queue.updateHistory ++
          [{ histEvent .add_time source now queue.currentPosition
              queue.currentPosition (queue.estimatedWait + t) with
             addedTime := some t }] }
      { httpStatus := 200, success := true, db := saveEntry db queue'
        trace := [.save queue'.id, .commitTx] ++
          qaNotify users queue "queue_add_time" ++ [.triggerRestructure] }
  | .undo =>
    if source == .user then qaError db [] else
    let recentActions := queue.updateHistory.filter fun h =>
      h.source == .vendor && now - 300000 < h.timestamp
    match recentActions.getLast? with
    | none => qaError db []
    | some lastAction =>
      match lastAction.action with
      | .skip =>
        match findSwappedPerson db queue.vendorId queue.helperId
            (lastAction.previousPosition.getD 0) with
        | none => qaError db []
        | some swapped =>
          match rateCards.find? fun s => s.id == queue.serviceId with
          | none => qaError db []
          | some service =>
            let tempPosition := queue.currentPosition
            let qPos := lastAction.previousPosition.getD 0
            let qWait := (qPos - 1) * service.duration
            let sWait := (tempPosition - 1) * service.duration
            let queue' := { queue with
              currentPosition := qPos
              estimatedWait := qWait
              estimatedServiceStartTime := now + qWait * 60000
              updateHistory := queue.updateHistory ++
                [histEvent .undo source now tempPosition qPos qWait] }
            let swapped' := { swapped with
              currentPosition := tempPosition
              estimatedWait := sWait
              estimatedServiceStartTime := now + sWait * 60000
              updateHistory := swapped.updateHistory ++
                [histEvent .undo source now tempPosition tempPosition sWait] }
            let db1 := saveEntry (saveEntry db swapped') queue'
            let tr := [.save swapped'.id, .save queue'.id] ++
              qaNotify users queue "queue_undo" ++ [.commitTx]
            { httpStatus := 200, success := true, db := db1, trace := tr }
      | .hold =>
        let queue' := { queue with
          status := .in_queue
          updateHistory := queue.updateHistory ++
            [histEvent .undo source now queue.currentPosition
              queue.currentPosition queue.estimatedWait] }
        { httpStatus := 200, success := true, db := saveEntry db queue'
          trace := [.save queue'.id, .commitTx] ++
            qaNotify users queue "queue_undo" ++ [.triggerRestructure] }
      | .unhold =>
        let queue' := { queue with
          status := .hold
          updateHistory := queue.updateHistory ++
            [histEvent .undo source now queue.currentPosition
              queue.currentPosition queue.estimatedWait] }
        { httpStatus := 200, success := true, db := saveEntry db queue'
          trace := [.save queue'.id, .commitTx] ++
            qaNotify users queue "queue_undo" ++ [.triggerRestructure] }
      | .remove =>
        let queue' := { queue with
          status := .in_queue
          updateHistory := queue.updateHistory ++
            [histEvent .undo source now queue.currentPosition
              queue.currentPosition queue.estimatedWait] }
        { httpStatus := 200, success := true, db := saveEntry db queue'
          trace := [.save queue'.id, .commitTx] ++
            qaNotify users queue "queue_undo" ++ [.triggerRestructure] }
      | .next =>
        let queue' := { queue with
          status := .in_queue
          updateHistory := queue.updateHistory ++
            [histEvent .undo source now queue.currentPosition
              queue.currentPosition queue.estimatedWait] }
        { httpStatus := 200, success := true, db := saveEntry db queue'
          trace := [.save queue'.id, .commitTx] ++
            qaNotify users queue "queue_undo" ++ [.triggerRestructure] }
      | .add_time =>
        let t := lastAction.addedTime.getD 0
        let queue' := { queue with
          estimatedWait := queue.estimatedWait - t
          estimatedServiceStartTime := queue.estimatedServiceStartTime - t * 60000
          updateHistory := queue.updateHistory ++
            [{ histEvent .undo source now queue.currentPosition
                queue.currentPosition (queue.estimatedWait - t) with
               addedTime := some (-t) }] }
        { httpStatus := 200, success := true, db := saveEntry db queue'
          trace := [.save queue'.id, .commitTx] ++
            qaNotify users queue "queue_undo" ++ [.triggerRestructure] }
      | _ => qaError db []
  | .edit => qaError db []

/-! ## Update rating (`POST /update-rating`, `queue.js` lines 2120-2195) -/

/-- Result of the `/update-rating` handler. -/
structure RatingResult where
  httpStatus : Nat
  success : Bool
  db : List QueueEntry
deriving Repr

/-- The `/update-rating` handler (`queue.js` lines 2130-2194).  The
authorization guard rejects only when the entry's `userId` exists and
differs from the caller *and* a `manualUserId` exists that cannot be
resolved within the vendor — so an entry with no `manualUserId` is
never rejected, whoever calls. -/
def updateRating (db : List QueueEntry) (manualUsers : List ManualUser)
    (callerUserId queueId : String) (rating : Int) (notes : Option String) :
    RatingResult :=
  if rating < 0 || 5 < rating then
    { httpStatus := 400, success := false, db := db }
  else
  match db.find? fun q => q.id == queueId with
  | none => { httpStatus := 400, success := false, db := db }
  | some queue =>
  if queue.status != .completed then
    { httpStatus := 400, success := false, db := db }
  else if queue.userId.isSome && queue.userId != some callerUserId &&
      queue.manualUserId.isSome &&
      ((queue.manualUserId.bind fun mid => manualUsers.find? fun m =>
        m.id == mid && m.vendorId == queue.vendorId).isNone) then
    { httpStatus := 403, success := false, db := db }
  else if queue.rating.isSome then
    { httpStatus := 400, success := false, db := db }
  else
    let queue' := { queue with
      rating := some rating
      notes := match notes with | some n => some n | none => queue.notes }
    { httpStatus := 200, success := true, db := saveEntry db queue' }

/-! ## Concrete scenario inputs -/

/-- A business owner `V` with the single capable helper `H1`. -/
def ownerV : Vendor :=
  { id := "V"
    accountType := .owner
    connectedHelpers := [⟨"H1", .accepted, true, ["S"]⟩] }

/-- A business owner `V` with capable helpers listed `[H1, H2]`. -/
def ownerV12 : Vendor :=
  { id := "V"
    accountType := .owner
    connectedHelpers :=
      [⟨"H1", .accepted, true, ["S"]⟩, ⟨"H2", .accepted, true, ["S"]⟩] }

/-- A business owner `V` with capable helpers listed `[H2, H1]`. -/
def ownerV21 : Vendor :=
  { id := "V"
    accountType := .owner
    connectedHelpers :=
      [⟨"H2", .accepted, true, ["S"]⟩, ⟨"H1", .accepted, true, ["S"]⟩] }

/-- The service `S` of business `V`: a 30-minute, price-100 rate card. -/
def cardS : RateCard := { id := "S", createdBy := "V", duration := 30, rate := 100 }

/-- Registered user `u1`, notifiable. -/
def userU1 : UserRec := { id := "u1", pushToken := some "tok" }

/-- A live queue entry of user `u⟨n⟩` on lane `(V, H1)` for service `S`
at position `pos`, joining time `10·n`, wait `(pos−1)·30`. -/
def mkEntry (n : Nat) (pos : Int) (st : QStatus) : QueueEntry :=
  { id := "e" ++ toString n
    userId := some ("u" ++ toString n)
    vendorId := "V"
    helperId := "H1"
    serviceId := "S"
    userType := .normal
    preference := .ANY
    gender := .male
    joiningPosition := pos
    currentPosition := pos
    joiningTime := (n : Int) * 10
    estimatedServiceStartTime := 0
    estimatedWait := (pos - 1) * 30
    status := st
    total := 100
    createdAt := 0 }

/-- Claim C3's lane: five entries at positions 1..5, the one at
position 3 on hold. -/
def laneHold3 : List QueueEntry :=
  [mkEntry 1 1 .in_queue, mkEntry 2 2 .in_queue, mkEntry 3 3 .hold,
   mkEntry 4 4 .in_queue, mkEntry 5 5 .in_queue]

/-- Claim C7's configuration: three ANY in-queue entries at positions
2, 3, 4 of lane `(V, H1)` while `V` has the two capable helpers
`[H1, H2]`. -/
def laneP234 : List QueueEntry :=
  [mkEntry 1 2 .in_queue, mkEntry 2 3 .in_queue, mkEntry 3 4 .in_queue]

/-- Committed database of a restructure run (`[]` on the other
outcomes). -/
def rdbOf : RestructureResult → List QueueEntry
  | .ok db _ _ _ => db
  | _ => []

/-- `updatedCount` of a restructure run (`0` on the other outcomes). -/
def rcountOf : RestructureResult → Nat
  | .ok _ c _ _ => c
  | _ => 0

/-- Whether a restructure run committed with success. -/
def rIsOk : RestructureResult → Bool
  | .ok _ _ _ _ => true
  | _ => false

/-- Position of entry `i` in a database (`none` when absent). -/
def posOf (db : List QueueEntry) (i : String) : Option Int :=
  (db.find? fun q => q.id == i).map QueueEntry.currentPosition

/-- Wait of entry `i` in a database (`none` when absent). -/
def waitOf (db : List QueueEntry) (i : String) : Option Int :=
  (db.find? fun q => q.id == i).map QueueEntry.estimatedWait

/-! ## Claim C1 -/

/-- The two-identical-items enqueue request of claim C1: user `u1`
asks business `V` for service `S` twice in one request, ANY
preference, against an empty queue collection. -/
def c1Enqueue : Except String (List QueueEntry × List QueueEntry) :=
  enqueue [] [ownerV] [userU1] [] [cardS] "V"
    [⟨"S", .male, .ANY, none⟩, ⟨"S", .male, .ANY, none⟩]
    .normal none "u1" 0 ["q1", "q2"]

/-- C1: claimed position uniqueness and density per lane fails on the
enqueue path.  A single committed enqueue request with two ANY line
items for the same service and the same (only) helper assigns
`currentPosition = 1` to *both* created entries, because the per-item
`countDocuments` sees only committed entries and the request's own
entries are inserted only after the loop (`queue.js` lines 1246,
1282).  The live lane `(V, H1)` then carries positions `[1, 1]`,
not `{1, 2}`. -/
theorem C1_enqueue_duplicate_positions :
    (c1Enqueue.map fun p => p.2.map fun e => (e.helperId, e.currentPosition)) =
      .ok [("H1", 1), ("H1", 1)] ∧
    (c1Enqueue.map fun p => (p.1.filter fun q =>
        q.vendorId == "V" && q.helperId == "H1" && isLive q.status).map
        QueueEntry.currentPosition) = .ok [1, 1] ∧
    ¬ ((1 : Int) ≠ 1) := by
  refine ⟨rfl, rfl, by decide⟩

/-! ## Claim C3 -/

/-- Claim C3's restructure run on the lane with a hold at position 3. -/
def c3Run : RestructureResult :=
  restructure laneHold3 [ownerV] [cardS] "V" (-100) 100 1000

/-- C3, counterexample: the claim says that after the restructure the
hold entry stays at position 3 and every position and ETA is
unchanged; in fact the bucket comparator (`queue.js` lines 1529-1535)
sorts `hold`/`skipped` entries *behind* every `in_queue` entry, so the
hold entry `e3` moves from position 3 to position 5 and three entries
are updated. -/
theorem C3_counterexample :
    posOf (rdbOf c3Run) "e3" = some 5 ∧ (5 : Int) ≠ 3 ∧
    rcountOf c3Run = 3 ∧ rIsOk c3Run = true := by
  refine ⟨by decide, by decide, by decide, by decide⟩

/-- C3, amended: within each helper's bucket the final order is the
Head entry first, then the `in_queue` entries, then the
`hold`/`skipped` entries, the last two classes each ordered by
`joiningTime` ascending.  Consequently, in the five-entry lane with a
hold at position 3, a restructure keeps entries 1 and 2 in place,
moves the entries at positions 4 and 5 up to 3 and 4, moves the hold
entry to the final position 5, and recomputes the three affected ETAs
(`(position − 1) · 30`). -/
theorem C3_amended :
    rIsOk c3Run = true ∧
    (["e1", "e2", "e3", "e4", "e5"].map fun i =>
        (posOf (rdbOf c3Run) i, waitOf (rdbOf c3Run) i)) =
      [(some 1, some 0), (some 2, some 30), (some 5, some 120),
       (some 3, some 60), (some 4, some 90)] ∧
    rcountOf c3Run = 3 := by
  refine ⟨by decide, by decide, by decide⟩

/-! ## Claim C4 -/

/-- Lexicographic strict order on strings by character code, used to
state the spec's "smallest `helperId`" tie-break. -/
def strLtb : List Char → List Char → Bool
  | [], [] => false
  | [], _ :: _ => true
  | _ :: _, [] => false
  | a :: as, b :: bs =>
    if a.toNat < b.toNat then true
    else if b.toNat < a.toNat then false
    else strLtb as bs

def strLt (a b : String) : Bool := strLtb a.data b.data

/-- One ANY enqueue against `ownerV21` (helpers listed `[H2, H1]`,
both idle and capable). -/
def c4TieEnqueue : Except String (List QueueEntry × List QueueEntry) :=
  enqueue [] [ownerV21] [userU1] [] [cardS] "V"
    [⟨"S", .male, .ANY, none⟩] .normal none "u1" 0 ["q1"]

/-- C4, counterexample: the claim says ANY ties break by smallest
`helperId`.  With both helpers idle and capable but listed
`[H2, H1]`, the selection loop (`queue.js` lines 1219-1237) keeps the
*first* helper in `connectedHelpers` order because it replaces the
minimum only on strict `<`; it therefore picks `H2` although
`H1 < H2`. -/
theorem C4_counterexample :
    (c4TieEnqueue.map fun p => p.2.map QueueEntry.helperId) = .ok ["H2"] ∧
    strLt "H1" "H2" = true ∧ "H2" ≠ "H1" := by
  refine ⟨rfl, by decide, by decide⟩

/-- The databases of the three successive single-item ANY enqueues of
the C4 scenario against `ownerV12` (helpers listed `[H1, H2]`). -/
def c4Db1 : List QueueEntry :=
  match enqueue [] [ownerV12] [userU1] [] [cardS] "V"
    [⟨"S", .male, .ANY, none⟩] .normal none "u1" 0 ["q1"] with
  | .ok p => p.1
  | .error _ => []

def c4Db2 : List QueueEntry :=
  match enqueue c4Db1 [ownerV12] [userU1] [] [cardS] "V"
    [⟨"S", .male, .ANY, none⟩] .normal none "u1" 10 ["q2"] with
  | .ok p => p.1
  | .error _ => []

def c4Db3 : List QueueEntry :=
  match enqueue c4Db2 [ownerV12] [userU1] [] [cardS] "V"
    [⟨"S", .male, .ANY, none⟩] .normal none "u1" 20 ["q3"] with
  | .ok p => p.1
  | .error _ => []

/-- C4, amended: the ANY engine assigns the helper minimizing
`queueLength · duration` among the active capable helpers, ties kept
with the *earlier* helper in the vendor's `connectedHelpers` array.
When the three duration-30 items are enqueued as three separate
committed requests and `connectedHelpers` lists `H1` before `H2`, the
scenario outcome of the claim holds: two entries on `H1` at positions
1 and 2 with waits 0 and 30, one on `H2` at position 1 with wait 0. -/
theorem C4_amended :
    (c4Db3.map fun e => (e.id, e.helperId, e.currentPosition, e.estimatedWait)) =
      [("q1", "H1", 1, 0), ("q2", "H2", 1, 0), ("q3", "H1", 2, 30)] := by
  decide

/-! ## Claim C7, counterexample -/

/-- First restructure run of the C7 configuration. -/
def c7Run1 : RestructureResult :=
  restructure laneP234 [ownerV12] [cardS] "V" (-100) 100 1000

/-- Second, back-to-back restructure run on the committed result. -/
def c7Run2 : RestructureResult :=
  restructure (rdbOf c7Run1) [ownerV12] [cardS] "V" (-100) 100 2000

/-- C7, counterexample: restructure is not idempotent.  On three ANY
entries and two capable helpers the first run balances them `H1:[e1]`,
`H2:[e2, e3]` (the flexible loop re-sorts the mutated helper array,
so the tie for `e3` keeps `H2` first); the second run pins the two new
heads and re-balances the single remaining flexible `e3` onto `H1`
(the tie now keeps the fresh array order `[H1, H2]`), so the second
run updates one entry instead of zero. -/
theorem C7_counterexample :
    rIsOk c7Run1 = true ∧ rcountOf c7Run1 = 3 ∧
    rcountOf c7Run2 = 1 ∧ (1 : Nat) ≠ 0 := by
  refine ⟨by decide, by decide, by decide, by decide⟩

/-! ## Claim C2 -/

/-- Assigned list of a restructure run. -/
def rassignedOf : RestructureResult → List (QueueEntry × Bool)
  | .ok _ _ a _ => a
  | _ => []

/-- Notification list of a restructure run. -/
def rnotifsOf : RestructureResult → List RNotif
  | .ok _ _ _ n => n
  | _ => []

/-- A placeholder entry (used only as a `getD` default). -/
def dummyEntry : QueueEntry :=
  { id := "", vendorId := "", helperId := "", serviceId := ""
    userType := .normal, preference := .ANY, gender := .male
    joiningPosition := 0, currentPosition := 0, joiningTime := 0
    estimatedServiceStartTime := 0, estimatedWait := 0, status := .in_queue
    total := 0, createdAt := 0 }

/-- Modelled from the spec's words (P2): the accumulated `add_time`
overlays of an entry, net of undone ones — `add_time` events carry
`addedTime = t` and undo-of-`add_time` events carry `addedTime = −t`
(`queue.js` lines 3058-3066 and 3360-3368). -/
def specAddTimeOverlaySum (q : QueueEntry) : Int :=
  (q.updateHistory.filter fun h =>
    h.action == .add_time || h.action == .undo).foldl
    (fun s h => s + h.addedTime.getD 0) 0

/-- Claim C2's input: a single live entry at position 2 (duration-30
service) carrying a committed `add_time` overlay of 10 minutes, so
its wait is `(2−1)·30 + 10 = 40` as the claim requires. -/
def overlayEntry : QueueEntry :=
  { mkEntry 1 2 .in_queue with
    estimatedWait := 40
    updateHistory :=
      [{ action := .add_time, source := .vendor, timestamp := 0
         previousPosition := some 2, newPosition := some 2
         addedTime := some 10, estimatedWait := some 40 }] }

/-- The restructure run over the overlay entry. -/
def c2Run : RestructureResult :=
  restructure [overlayEntry] [ownerV] [cardS] "V" (-100) 100 1000

/-- C2, counterexample: the claim says the restructure preserves
accumulated `add_time` overlays; in fact it recomputes
`estimatedWait = (newPosition − 1) · duration` from scratch
(`queue.js` line 1543).  The overlay entry ends at position 1 with
wait 0, not the claimed `(1 − 1)·30 + 10 = 10`. -/
theorem C2_counterexample :
    rIsOk c2Run = true ∧
    posOf (rdbOf c2Run) "e1" = some 1 ∧
    waitOf (rdbOf c2Run) "e1" = some 0 ∧
    ((rdbOf c2Run).find? fun q => q.id == "e1").map specAddTimeOverlaySum =
      some 10 ∧
    (0 : Int) ≠ (1 - 1) * 30 + 10 := by
  refine ⟨rfl, rfl, rfl, rfl, by decide⟩

/-- Membership in a fold that only appends. -/
theorem mem_foldl_append {α β : Type} (f : β → List α) (l : List β)
    (init : List α) (p : α) :
    p ∈ l.foldl (fun acc x => acc ++ f x) init ↔
      p ∈ init ∨ ∃ x, x ∈ l ∧ p ∈ f x := by
  induction l generalizing init with
  | nil => simp
  | cons b t ih =>
    rw [List.foldl_cons, ih]
    simp only [List.mem_append, List.mem_cons]
    constructor
    · rintro (( h | h) | ⟨x, hx, hp⟩)
      · exact Or.inl h
      · exact Or.inr ⟨b, Or.inl rfl, h⟩
      · exact Or.inr ⟨x, Or.inr hx, hp⟩
    · rintro (h | ⟨x, (rfl | hx), hp⟩)
      · exact Or.inl (Or.inl h)
      · exact Or.inl (Or.inr hp)
      · exact Or.inr ⟨x, hx, hp⟩

/-- Membership in any component of a classification accumulator. -/
abbrev memAny (q : QueueEntry)
    (acc : List QueueEntry × List QueueEntry × List QueueEntry × List QueueEntry) :
    Prop :=
  q ∈ acc.1 ∨ q ∈ acc.2.1 ∨ q ∈ acc.2.2.1 ∨ q ∈ acc.2.2.2

theorem classifyStep_mem (capable : List ConnectedHelper)
    (acc : List QueueEntry × List QueueEntry × List QueueEntry × List QueueEntry)
    (e q : QueueEntry) (h : memAny q (classifyStep capable acc e)) :
    memAny q acc ∨ q = e := by
  obtain ⟨s, sp, hq, f⟩ := acc
  simp only [classifyStep, memAny] at h ⊢
  split_ifs at h <;>
    simp only [List.mem_append, List.mem_singleton] at h <;> tauto

/-- Every entry placed by `classifyGroup` comes from the group. -/
theorem classifyGroup_subset (capable : List ConnectedHelper)
    (group : List QueueEntry)
    (acc₀ : List QueueEntry × List QueueEntry × List QueueEntry × List QueueEntry)
    (q : QueueEntry)
    (h : memAny q (group.foldl (classifyStep capable) acc₀)) :
    memAny q acc₀ ∨ q ∈ group := by
  induction group generalizing acc₀ with
  | nil => exact Or.inl h
  | cons e t ih =>
    rw [List.foldl_cons] at h
    rcases ih _ h with hacc | hg
    · rcases classifyStep_mem capable acc₀ e q hacc with h1 | rfl
      · exact Or.inl h1
      · exact Or.inr (List.mem_cons_self _ _)
    · exact Or.inr (List.mem_cons_of_mem _ hg)

/-- All bucket members carry the given service id. -/
def BucketsHaveService (sid : String)
    (assign : List (String × List QueueEntry)) : Prop :=
  ∀ pr ∈ assign, ∀ q ∈ pr.2, q.serviceId = sid

theorem bucketPush_preserve {sid : String} {assign} {hid : String}
    {q : QueueEntry} (h : BucketsHaveService sid assign)
    (hq : q.serviceId = sid) :
    BucketsHaveService sid (bucketPush assign hid q) := by
  intro pr hpr q' hq'
  simp only [bucketPush, List.mem_map] at hpr
  obtain ⟨pr₀, hpr₀, rfl⟩ := hpr
  split at hq'
  · simp only [List.mem_append, List.mem_singleton] at hq'
    rcases hq' with h' | rfl
    · exact h pr₀ hpr₀ q' h'
    · exact hq
  · exact h pr₀ hpr₀ q' hq'

theorem pushPinned_preserve {sid : String} {capable} {assign}
    {q : QueueEntry} (h : BucketsHaveService sid assign)
    (hq : q.serviceId = sid) :
    BucketsHaveService sid (pushPinned capable assign q) := by
  unfold pushPinned
  split
  · exact bucketPush_preserve h hq
  · split
    · exact h
    · exact bucketPush_preserve h hq

theorem foldl_pushPinned_preserve {sid : String} {capable} {assign}
    {l : List QueueEntry} (hl : ∀ q ∈ l, q.serviceId = sid)
    (h : BucketsHaveService sid assign) :
    BucketsHaveService sid (l.foldl (pushPinned capable) assign) := by
  induction l generalizing assign with
  | nil => exact h
  | cons q t ih =>
    exact ih (fun x hx => hl x (List.mem_cons_of_mem _ hx))
      (pushPinned_preserve h (hl q (List.mem_cons_self _ _)))

theorem foldl_bucketPush_preserve {sid : String} {assign}
    {l : List QueueEntry} (hl : ∀ q ∈ l, q.serviceId = sid)
    (h : BucketsHaveService sid assign) :
    BucketsHaveService sid
      (l.foldl (fun a q => bucketPush a q.helperId q) assign) := by
  induction l generalizing assign with
  | nil => exact h
  | cons q t ih =>
    exact ih (fun x hx => hl x (List.mem_cons_of_mem _ hx))
      (bucketPush_preserve h (hl q (List.mem_cons_self _ _)))

theorem assignFlexibles_preserve {sid : String} {bs : Buckets}
    {flex : List QueueEntry} (hflex : ∀ q ∈ flex, q.serviceId = sid)
    (h : BucketsHaveService sid bs.assign) :
    BucketsHaveService sid (assignFlexibles bs flex).assign := by
  induction flex generalizing bs with
  | nil => exact h
  | cons q t ih =>
    have step : assignFlexibles bs (q :: t) = assignFlexibles (flexStep bs q) t :=
      rfl
    rw [step]
    apply ih (fun x hx => hflex x (List.mem_cons_of_mem _ hx))
    have hq : q.serviceId = sid := hflex q (List.mem_cons_self _ _)
    unfold flexStep
    dsimp only
    split
    · exact h
    · exact bucketPush_preserve h hq

/-- Everything produced by the position loop is an `assignEntry` image
of a bucket member. -/
theorem mem_assignFrom {now : Int} {vid sid : String} {d : Int} {hid : String}
    {p : QueueEntry × Bool} :
    ∀ {pos : Int} {l : List QueueEntry},
      p ∈ assignFrom now vid sid d hid pos l →
      ∃ pos' q, q ∈ l ∧ p = assignEntry now vid sid d hid pos' q := by
  intro pos l
  induction l generalizing pos with
  | nil => intro h; simp [assignFrom] at h
  | cons q t ih =>
    intro h
    rcases h with _ | ⟨_, h⟩
    · exact ⟨pos, q, List.mem_cons_self _ _, rfl⟩
    · obtain ⟨pos', q', hq', rfl⟩ := ih h
      exact ⟨pos', q', List.mem_cons_of_mem _ hq', rfl⟩

/-- `assignEntry` always leaves the entry with
`estimatedWait = (currentPosition − 1) · duration`, and never touches
its service id. -/
theorem assignEntry_spec (now : Int) (vid sid : String) (d : Int)
    (hid : String) (pos : Int) (q : QueueEntry) :
    (assignEntry now vid sid d hid pos q).1.serviceId = q.serviceId ∧
    (assignEntry now vid sid d hid pos q).1.estimatedWait =
      ((assignEntry now vid sid d hid pos q).1.currentPosition - 1) * d := by
  unfold assignEntry
  dsimp only
  split
  · exact ⟨rfl, rfl⟩
  · next hch =>
    simp only [Bool.or_eq_true, not_or, Bool.not_eq_true, bne_eq_false_iff_eq]
      at hch
    obtain ⟨⟨h1, _⟩, h3⟩ := hch
    exact ⟨rfl, by rw [h3, h1]⟩

/-- Everything `processGroup` assigns keeps the group's service id and
satisfies the wait equation with the group's duration. -/
theorem processGroup_spec {now : Int} {vid : String}
    {activeHelpers : List ConnectedHelper} {sid : String} {d : Int}
    {group : List QueueEntry} {p : QueueEntry × Bool}
    (hp : p ∈ processGroup now vid activeHelpers sid d group)
    (hgroup : ∀ q ∈ group, q.serviceId = sid) :
    p.1.serviceId = sid ∧
    p.1.estimatedWait = (p.1.currentPosition - 1) * d := by
  unfold processGroup at hp
  dsimp only at hp
  split at hp
  · simp at hp
  · next hcap =>
    set capable := activeHelpers.filter
      (fun h => h.associatedServices.contains sid) with hcapdef
    rw [mem_foldl_append] at hp
    rcases hp with h0 | ⟨pr, hpr, hp⟩
    · simp at h0
    · -- hpr : pr ∈ bs.assign for the built buckets
      have hbs : BucketsHaveService sid
          ((assignFlexibles
            { order := capable
              assign := (classifyGroup capable group).2.2.1.foldl
                (pushPinned capable)
                ((classifyGroup capable group).2.1.foldl
                  (fun a q => bucketPush a q.helperId q)
                  ((classifyGroup capable group).1.foldl (pushPinned capable)
                    (capable.map fun h => (h.helperId, ([] : List QueueEntry)))))}
            (classifyGroup capable group).2.2.2).assign) := by
        have hcls : ∀ q, memAny q (classifyGroup capable group) →
            q.serviceId = sid := by
          intro q hq
          rcases classifyGroup_subset capable group ([], [], [], []) q hq with
            habs | hg
          · simp [memAny] at habs
          · exact hgroup q hg
        have hinit : BucketsHaveService sid
            (capable.map fun h => (h.helperId, ([] : List QueueEntry))) := by
          intro pr hpr q hq
          simp only [List.mem_map] at hpr
          obtain ⟨h, _, rfl⟩ := hpr
          simp at hq
        apply assignFlexibles_preserve
          (fun q hq => hcls q (Or.inr (Or.inr (Or.inr hq))))
        apply foldl_pushPinned_preserve
          (fun q hq => hcls q (Or.inr (Or.inr (Or.inl hq))))
        apply foldl_bucketPush_preserve
          (fun q hq => hcls q (Or.inr (Or.inl hq)))
        exact foldl_pushPinned_preserve (fun q hq => hcls q (Or.inl hq)) hinit
      rw [assignBucket] at hp
      obtain ⟨pos', q, hq, rfl⟩ := mem_assignFrom hp
      have hq2 : q ∈ pr.2 := by
        simpa [jsSortBy, List.mem_insertionSort] using hq
      have hsid : q.serviceId = sid := hbs pr hpr q hq2
      obtain ⟨h1, h2⟩ := assignEntry_spec now vid sid d pr.1 pos' q
      exact ⟨h1.trans hsid, h2⟩

/-- C2, amended.  The overlay-inclusive wait equation is not an
invariant: the restructure does *not* preserve `add_time` overlays —
every entry it processes ends with `estimatedWait` equal to exactly
`(currentPosition − 1) · duration` of its service, the accumulated
overlays being discarded. -/
theorem C2_amended (db : List QueueEntry) (vendors : List Vendor)
    (rateCards : List RateCard) (vid : String) (t0 t1 now : Int)
    (db' : List QueueEntry) (c : Nat) (a : List (QueueEntry × Bool))
    (n : List RNotif)
    (hrun : restructure db vendors rateCards vid t0 t1 now = .ok db' c a n)
    (p : QueueEntry × Bool) (hp : p ∈ a) :
    p.1.estimatedWait = (p.1.currentPosition - 1) *
      (((rateCards.find? fun s => s.id == p.1.serviceId).map
        RateCard.duration).getD 0) := by
  unfold restructure at hrun
  split at hrun
  · exact absurd hrun (by simp)
  · dsimp only at hrun
    split at hrun
    · exact absurd hrun (by simp)
    · split at hrun
      · cases hrun
        simp at hp
      · split at hrun
        · exact absurd hrun (by simp)
        · cases hrun
          rw [mem_foldl_append] at hp
          rcases hp with h0 | ⟨sid, _, hp⟩
          · simp at h0
          · have hgroup : ∀ q ∈ (jsSortBy jtCmp
                (windowFilter vid t0 t1 db)).filter
                  (fun q => q.serviceId == sid),
                q.serviceId = sid := by
              intro q hq
              exact eq_of_beq (List.mem_filter.mp hq).2
            obtain ⟨hsid, hwait⟩ := processGroup_spec hp hgroup
            rw [hwait, hsid]

/-- Witness for `C2_amended` at the overlay-entry run: its single
assigned entry satisfies the wait equation. -/
theorem C2_amended_witness :
    ((rassignedOf c2Run).headD (dummyEntry, false)).1.estimatedWait =
      (((rassignedOf c2Run).headD (dummyEntry, false)).1.currentPosition - 1) *
        ((([cardS].find? fun s =>
          s.id == ((rassignedOf c2Run).headD (dummyEntry, false)).1.serviceId).map
          RateCard.duration).getD 0) :=
  C2_amended [overlayEntry] [ownerV] [cardS] "V" (-100) 100 1000
    (rdbOf c2Run) (rcountOf c2Run) (rassignedOf c2Run) (rnotifsOf c2Run)
    (by rfl) ((rassignedOf c2Run).headD (dummyEntry, false)) (by decide)

/-! ## Claims C5, C6, C8, C9, C10 -/

/-- Finding by id after a save returns the saved version. -/
theorem find_saveEntry (db : List QueueEntry) (qid : String) (q q' : QueueEntry)
    (hq : db.find? (fun e => e.id == qid) = some q) (hid : q'.id = q.id) :
    (saveEntry db q').find? (fun e => e.id == qid) = some q' := by
  have hqid0 := List.find?_some hq
  have hqid : (q.id == qid) = true := hqid0
  induction db with
  | nil => simp at hq
  | cons e t ih =>
    rw [List.find?_cons_eq_some] at hq
    simp only [saveEntry, List.map_cons]
    rw [List.find?_cons_eq_some]
    rcases hq with ⟨he, rfl⟩ | ⟨he, hq⟩
    · have h1 : (e.id == q'.id) = true := by
        rw [hid]; exact beq_self_eq_true _
      rw [if_pos h1]
      exact Or.inl ⟨by rw [hid]; exact hqid, rfl⟩
    · simp only [Bool.not_eq_true'] at he
      have h1 : (e.id == q'.id) = false := by
        rw [hid]
        by_cases h : (e.id == q.id) = true
        · rw [eq_of_beq h] at he
          rw [hqid] at he
          cases he
        · simpa using h
      rw [if_neg (by simp [h1])]
      refine Or.inr ⟨by simpa using he, ih hq⟩

/-- The hold-at-head entry of claim C5's counterexample. -/
def c5HoldHead : QueueEntry := mkEntry 1 1 .hold

/-- The `next` action applied to it by the owner. -/
def c5Run : QAResult :=
  queueAction [c5HoldHead] [ownerV] [userU1] [cardS] "e1" .next none "V" 1000

/-- C5, counterexample: the claim says `next` succeeds only when
`status = in_queue ∧ currentPosition = 1` and errors otherwise.  The
handler checks only `currentPosition = 1` and `status ≠ completed`
(`queue.js` lines 2994-3004), so `next` on a *hold* entry at position
1 succeeds and completes it. -/
theorem C5_counterexample :
    c5HoldHead.status ≠ .in_queue ∧
    c5Run.success = true ∧ c5Run.httpStatus = 200 ∧
    (c5Run.db.map fun e => e.status) = [.completed] := by
  refine ⟨by decide, rfl, rfl, rfl⟩

/-- C5, amended: for an owner-authorized caller, `next` succeeds iff
`currentPosition = 1` and the status is neither `completed` nor
`removed` (so a `hold` or `skipped` entry at the head completes
too); on success the entry becomes `completed`, on failure the
response is HTTP 500 and the database is unchanged.  In particular no
entry with `currentPosition ≠ 1` ever transitions to `completed`. -/
theorem C5_amended (db : List QueueEntry) (vendors : List Vendor)
    (users : List UserRec) (rateCards : List RateCard)
    (qid caller : String) (now : Int) (q : QueueEntry) (vendor : Vendor)
    (hq : db.find? (fun e => e.id == qid) = some q)
    (hv : vendors.find? (fun v => v.id == q.vendorId) = some vendor)
    (hvd : vendor.isDeleted = false) (hvs : vendor.isSuspended = false)
    (hacct : vendor.accountType = .owner) (howner : vendor.id = caller)
    (hnu : q.userId ≠ some caller) :
    ((queueAction db vendors users rateCards qid .next none caller now).success = true ↔
      q.currentPosition = 1 ∧ q.status ≠ .completed ∧ q.status ≠ .removed) ∧
    ((queueAction db vendors users rateCards qid .next none caller now).success = true →
      ((queueAction db vendors users rateCards qid .next none caller now).db.find?
          fun e => e.id == qid) =
        some { q with status := .completed
                      updateHistory := q.updateHistory ++
                        [histEvent .next .vendor now q.currentPosition
                          q.currentPosition q.estimatedWait] }) ∧
    ((queueAction db vendors users rateCards qid .next none caller now).success = false →
      (queueAction db vendors users rateCards qid .next none caller now).db = db ∧
      (queueAction db vendors users rateCards qid .next none caller now).httpStatus = 500) := by
  have hisUser : (q.userId == some caller) = false := by
    simpa using hnu
  have hisOwner : (vendor.accountType == AccountType.owner && vendor.id == caller) = true := by
    simp [hacct, howner]
  unfold queueAction
  simp only [hq, hv, hvd, hvs, hisUser, hisOwner]
  by_cases hrem : q.status = .removed
  · simp only [hrem]
    refine ⟨by simp [qaError], by simp [qaError], by simp [qaError]⟩
  · have hrembeq : (q.status == QStatus.removed) = false := by
      simpa using hrem
    simp only [hrembeq, Bool.false_eq_true, if_false]
    by_cases hpos : q.currentPosition = 1
    · by_cases hcomp : q.status = .completed
      · have h1 : (q.currentPosition != 1) = false := by simp [hpos]
        have h2 : (q.status == QStatus.completed) = true := by simp [hcomp]
        simp only [h1, h2, Bool.false_eq_true, if_false, if_true]
        refine ⟨by simp [qaError, hcomp], by simp [qaError], by simp [qaError]⟩
      · have h1 : (q.currentPosition != 1) = false := by simp [hpos]
        have h2 : (q.status == QStatus.completed) = false := by simpa using hcomp
        simp only [h1, h2, Bool.false_eq_true, if_false]
        refine ⟨by simp [hpos, hcomp, hrem], fun _ => ?_, by simp⟩
        exact find_saveEntry db qid q _ hq rfl
    · have h1 : (q.currentPosition != 1) = true := by simpa using hpos
      simp only [h1, if_true]
      refine ⟨by simp [qaError, hpos], by simp [qaError], by simp [qaError]⟩

/-- Witness for `C5_amended`: the owner completing the head of a
one-entry in-queue lane. -/
theorem C5_amended_witness :
    ((queueAction [mkEntry 1 1 .in_queue] [ownerV] [userU1] [cardS] "e1"
        .next none "V" 1000).success = true ↔
      (mkEntry 1 1 .in_queue).currentPosition = 1 ∧
      (mkEntry 1 1 .in_queue).status ≠ .completed ∧
      (mkEntry 1 1 .in_queue).status ≠ .removed) ∧
    ((queueAction [mkEntry 1 1 .in_queue] [ownerV] [userU1] [cardS] "e1"
        .next none "V" 1000).success = true →
      ((queueAction [mkEntry 1 1 .in_queue] [ownerV] [userU1] [cardS] "e1"
          .next none "V" 1000).db.find? fun e => e.id == "e1") =
        some { mkEntry 1 1 .in_queue with
               status := .completed
               updateHistory := (mkEntry 1 1 .in_queue).updateHistory ++
                 [histEvent .next .vendor 1000
                   (mkEntry 1 1 .in_queue).currentPosition
                   (mkEntry 1 1 .in_queue).currentPosition
                   (mkEntry 1 1 .in_queue).estimatedWait] }) ∧
    ((queueAction [mkEntry 1 1 .in_queue] [ownerV] [userU1] [cardS] "e1"
        .next none "V" 1000).success = false →
      (queueAction [mkEntry 1 1 .in_queue] [ownerV] [userU1] [cardS] "e1"
        .next none "V" 1000).db = [mkEntry 1 1 .in_queue] ∧
      (queueAction [mkEntry 1 1 .in_queue] [ownerV] [userU1] [cardS] "e1"
        .next none "V" 1000).httpStatus = 500) :=
  C5_amended [mkEntry 1 1 .in_queue] [ownerV] [userU1] [cardS] "e1" "V" 1000
    (mkEntry 1 1 .in_queue) ownerV (by decide) (by decide) (by decide)
    (by decide) (by decide) (by decide) (by decide)

/-- The removed entry of claim C6: its only history event is a
vendor-sourced `remove` one minute old. -/
def c6Removed : QueueEntry :=
  { mkEntry 1 1 .removed with
    updateHistory :=
      [{ action := .remove, source := .vendor, timestamp := 940000
         previousPosition := some 1, newPosition := some 1
         estimatedWait := some 0 }] }

/-- The vendor-side undo attempt on it at `now = 1000000` (the remove
is 60 s old, well inside the 5-minute window). -/
def c6Run : QAResult :=
  queueAction [c6Removed] [ownerV] [userU1] [cardS] "e1" .undo none "V" 1000000

/-- C6, counterexample: the claim says a vendor-side undo of a
recent remove succeeds and puts the entry back `in_queue`.  The
handler rejects *every* action on an entry whose status is `removed`
at the initial lookup (`queue.js` line 2732), so the undo errors with
HTTP 500 and the entry stays `removed` — the undo-of-remove branch at
lines 3263-3276 is unreachable. -/
theorem C6_counterexample :
    c6Run.success = false ∧ c6Run.httpStatus = 500 ∧
    c6Run.db = [c6Removed] ∧ c6Removed.status = .removed := by
  refine ⟨rfl, rfl, rfl, rfl⟩

/-- C6, amended: `status = removed` is terminal for the action
endpoint: any `queue-action` call (hence in particular `undo`) on a
removed entry fails with HTTP 500 and leaves the database unchanged,
so an undo of a `remove` never happens and the undo-of-remove branch
is dead code. -/
theorem C6_amended (db : List QueueEntry) (vendors : List Vendor)
    (users : List UserRec) (rateCards : List RateCard)
    (qid caller : String) (now : Int) (action : HAction)
    (addedTime : Option Int) (q : QueueEntry)
    (hq : db.find? (fun e => e.id == qid) = some q)
    (hst : q.status = .removed)
    (hact : action ≠ .edit)
    (hadd : 1 ≤ addedTime.getD 1) :
    (queueAction db vendors users rateCards qid action addedTime caller now).success
        = false ∧
    (queueAction db vendors users rateCards qid action addedTime caller now).httpStatus
        = 500 ∧
    (queueAction db vendors users rateCards qid action addedTime caller now).db = db := by
  have h1 : (action == HAction.edit) = false := by simpa using hact
  have h2 : ¬ (addedTime.getD 1 < 1) := not_lt.mpr hadd
  have h3 : (q.status == QStatus.removed) = true := by simp [hst]
  unfold queueAction
  simp [h1, h2, h3, hq, qaError]

/-- Witness for `C6_amended` at the removed-entry undo. -/
theorem C6_amended_witness :
    (queueAction [c6Removed] [ownerV] [userU1] [cardS] "e1" .undo none "V"
        1000000).success = false ∧
    (queueAction [c6Removed] [ownerV] [userU1] [cardS] "e1" .undo none "V"
        1000000).httpStatus = 500 ∧
    (queueAction [c6Removed] [ownerV] [userU1] [cardS] "e1" .undo none "V"
        1000000).db = [c6Removed] :=
  C6_amended [c6Removed] [ownerV] [userU1] [cardS] "e1" "V" 1000000 .undo none
    c6Removed (by decide) (by decide) (by decide) (by decide)

/-- Whether a trace dispatches notifications only after the
transaction commit. -/
def notifyOnlyAfterCommit : List Effect → Bool
  | [] => true
  | .notify _ :: _ => false
  | .commitTx :: _ => true
  | _ :: t => notifyOnlyAfterCommit t

/-- The two-entry in-queue lane used for the skip counterexample. -/
def c8Db : List QueueEntry := [mkEntry 1 1 .in_queue, mkEntry 2 2 .in_queue]

/-- The owner's skip on its head. -/
def c8Run : QAResult :=
  queueAction c8Db [ownerV] [userU1] [cardS] "e1" .skip none "V" 1000

/-- C8, counterexample: the claim says every queue-action
notification is dispatched only after its transaction commits.  The
`skip` branch sends its notification (`queue.js` line 2855) and only
then falls through to the common `commitTransaction` (line 3408), so
a successful skip's trace notifies *before* the commit — if the
commit then fails, the notification is already out. -/
theorem C8_counterexample :
    c8Run.success = true ∧
    notifyOnlyAfterCommit c8Run.trace = false ∧
    c8Run.trace = [.save "e2", .save "e1", .notify "queue_skip", .commitTx] := by
  refine ⟨rfl, rfl, rfl⟩

/-- C8, amended: the `hold`, `unhold`, `remove`, `next` and
`add_time` branches commit before notifying (as do the non-skip undo
branches), but the `skip` branch (and undo-of-skip) notifies before
the common commit.  The first conjunct states the after-commit
discipline for the five direct actions on *all* inputs; the second
exhibits the skip violation. -/
theorem C8_amended (db : List QueueEntry) (vendors : List Vendor)
    (users : List UserRec) (rateCards : List RateCard)
    (qid caller : String) (now : Int) (addedTime : Option Int)
    (action : HAction)
    (hact : action = .hold ∨ action = .unhold ∨ action = .remove ∨
      action = .next ∨ action = .add_time) :
    notifyOnlyAfterCommit
      (queueAction db vendors users rateCards qid action addedTime caller now).trace
        = true ∧
    notifyOnlyAfterCommit c8Run.trace = false := by
  refine ⟨?_, rfl⟩
  rcases hact with rfl | rfl | rfl | rfl | rfl <;>
    · unfold queueAction
      rw [if_neg (by decide)]
      dsimp only
      repeat' split <;> try rfl

/-- Witness for `C8_amended` at the owner's hold on a head entry. -/
theorem C8_amended_witness :
    notifyOnlyAfterCommit
      (queueAction c8Db [ownerV] [userU1] [cardS] "e1" .hold none "V"
        1000).trace = true ∧
    notifyOnlyAfterCommit c8Run.trace = false :=
  C8_amended c8Db [ownerV] [userU1] [cardS] "e1" "V" 1000 none .hold
    (Or.inl rfl)

/-- The customer `u1` asking to hold their own entry. -/
def c9HoldRun : QAResult :=
  queueAction [mkEntry 1 1 .in_queue] [ownerV] [userU1] [cardS] "e1" .hold
    none "u1" 1000

/-- C9, counterexample: the claim says a customer's non-`remove`
action is rejected *as Forbidden* (HTTP 403 in the spec's taxonomy).
The handler throws into its generic catch, which answers HTTP 500
(`queue.js` lines 3415-3422), not 403 — though the entry is indeed
unchanged. -/
theorem C9_counterexample :
    c9HoldRun.httpStatus = 500 ∧ c9HoldRun.httpStatus ≠ 403 ∧
    c9HoldRun.success = false ∧ c9HoldRun.db = [mkEntry 1 1 .in_queue] := by
  refine ⟨rfl, by decide, rfl, rfl⟩

/-- C9, amended: a registered-user principal can mutate a queue entry
only via `remove` on their own entry.  Any other action by the
customer — even on their own entry — is rejected with HTTP 500 (not
403) and the database unchanged, while `remove` on their own
non-removed entry succeeds and sets `status = removed`. -/
theorem C9_amended (db : List QueueEntry) (vendors : List Vendor)
    (users : List UserRec) (rateCards : List RateCard)
    (qid caller : String) (now : Int) (addedTime : Option Int)
    (action : HAction) (q : QueueEntry) (vendor : Vendor)
    (hq : db.find? (fun e => e.id == qid) = some q)
    (hst : q.status ≠ .removed)
    (huser : q.userId = some caller)
    (hv : vendors.find? (fun v => v.id == q.vendorId) = some vendor)
    (hvd : vendor.isDeleted = false) (hvs : vendor.isSuspended = false)
    (hnotowner : (vendor.accountType == AccountType.owner &&
      vendor.id == caller) = false)
    (hnothelper : (vendor.accountType == AccountType.owner &&
      vendor.connectedHelpers.any fun h =>
        h.helperId == caller && h.status == .accepted && h.active) = false)
    (hact : action ≠ .edit)
    (hadd : 1 ≤ addedTime.getD 1) :
    (action ≠ .remove →
      (queueAction db vendors users rateCards qid action addedTime caller now).success
          = false ∧
      (queueAction db vendors users rateCards qid action addedTime caller now).httpStatus
          = 500 ∧
      (queueAction db vendors users rateCards qid action addedTime caller now).db
          = db) ∧
    (action = .remove →
      (queueAction db vendors users rateCards qid action addedTime caller now).success
          = true ∧
      ((queueAction db vendors users rateCards qid action addedTime caller now).db.find?
          fun e => e.id == qid) =
        some { q with status := .removed
                      updateHistory := q.updateHistory ++
                        [histEvent .remove .user now q.currentPosition
                          q.currentPosition q.estimatedWait] }) := by
  have h1 : (action == HAction.edit) = false := by simpa using hact
  have h2 : ¬ (addedTime.getD 1 < 1) := not_lt.mpr hadd
  have h3 : (q.status == QStatus.removed) = false := by simpa using hst
  have h4 : (q.userId == some caller) = true := by simp [huser]
  constructor
  · intro hnr
    have h5 : (action == HAction.remove) = false := by simpa using hnr
    unfold queueAction
    simp [h1, h2, h3, h4, h5, hq, hv, hvd, hvs, hnotowner, hnothelper, qaError]
  · rintro rfl
    unfold queueAction
    rw [if_neg (by decide)]
    rw [if_neg h2]
    simp only [hq]
    rw [if_neg (by simp [h3])]
    simp only [hv]
    rw [if_neg (by simp [hvd, hvs])]
    rw [if_neg (by simp [h4])]
    rw [if_pos h4]
    refine ⟨rfl, ?_⟩
    exact find_saveEntry db qid q _ hq rfl

/-- Witness for `C9_amended` at the customer's own-entry remove. -/
theorem C9_amended_witness :
    (HAction.remove ≠ HAction.remove →
      (queueAction [mkEntry 1 1 .in_queue] [ownerV] [userU1] [cardS] "e1"
        .remove none "u1" 1000).success = false ∧
      (queueAction [mkEntry 1 1 .in_queue] [ownerV] [userU1] [cardS] "e1"
        .remove none "u1" 1000).httpStatus = 500 ∧
      (queueAction [mkEntry 1 1 .in_queue] [ownerV] [userU1] [cardS] "e1"
        .remove none "u1" 1000).db = [mkEntry 1 1 .in_queue]) ∧
    (HAction.remove = HAction.remove →
      (queueAction [mkEntry 1 1 .in_queue] [ownerV] [userU1] [cardS] "e1"
        .remove none "u1" 1000).success = true ∧
      ((queueAction [mkEntry 1 1 .in_queue] [ownerV] [userU1] [cardS] "e1"
          .remove none "u1" 1000).db.find? fun e => e.id == "e1") =
        some { mkEntry 1 1 .in_queue with
               status := .removed
               updateHistory := (mkEntry 1 1 .in_queue).updateHistory ++
                 [histEvent .remove .user 1000
                   (mkEntry 1 1 .in_queue).currentPosition
                   (mkEntry 1 1 .in_queue).currentPosition
                   (mkEntry 1 1 .in_queue).estimatedWait] }) :=
  C9_amended [mkEntry 1 1 .in_queue] [ownerV] [userU1] [cardS] "e1" "u1" 1000
    none .remove (mkEntry 1 1 .in_queue) ownerV (by decide) (by decide)
    (by decide) (by decide) (by decide) (by decide) (by decide) (by decide)
    (by decide) (by decide)

/-- C10: the update-rating endpoint never rejects a caller for a
registered-user entry without `manualUserId`: for *any* authenticated
caller and any completed, unrated entry with no `manualUserId`, the
call succeeds and writes the rating — even when the entry's `userId`
differs from the caller — because the guard at `queue.js` lines
2151-2158 only rejects when the `userId` mismatches *and* a
`manualUserId` is present that cannot be resolved. -/
theorem C10_theorem (db : List QueueEntry) (manualUsers : List ManualUser)
    (caller qid : String) (rating : Int) (notes : Option String)
    (q : QueueEntry)
    (hq : db.find? (fun e => e.id == qid) = some q)
    (hst : q.status = .completed)
    (hr : q.rating = none)
    (hm : q.manualUserId = none)
    (h0 : 0 ≤ rating) (h5 : rating ≤ 5) :
    (updateRating db manualUsers caller qid rating notes).success = true ∧
    (updateRating db manualUsers caller qid rating notes).httpStatus = 200 ∧
    ((updateRating db manualUsers caller qid rating notes).db.find?
        fun e => e.id == qid) =
      some { q with rating := some rating
                    notes := match notes with
                             | some n => some n
                             | none => q.notes } := by
  have h1 : ¬ (rating < 0 || 5 < rating) = true := by
    simp [not_lt.mpr h0, not_lt.mpr h5]
  have h2 : (q.status != QStatus.completed) = false := by simp [hst]
  have h3 : q.manualUserId.isSome = false := by simp [hm]
  have h4 : q.rating.isSome = false := by simp [hr]
  unfold updateRating
  simp only [hq, if_neg h1, h2, Bool.false_eq_true, if_false]
  rw [if_neg (by simp [h3]), if_neg (by simp [h4])]
  exact ⟨rfl, rfl, find_saveEntry db qid q _ hq rfl⟩

/-- The completed entry of stranger `u9` rated by caller `u1`. -/
def c10Entry : QueueEntry := { mkEntry 1 1 .completed with userId := some "u9" }

/-- Witness for `C10_theorem`: caller `u1` rates the completed entry
of the different user `u9`, and the write succeeds. -/
theorem C10_theorem_witness :
    (updateRating [c10Entry] [] "u1" "e1" 4 (some "great")).success = true ∧
    (updateRating [c10Entry] [] "u1" "e1" 4 (some "great")).httpStatus = 200 ∧
    ((updateRating [c10Entry] [] "u1" "e1" 4 (some "great")).db.find?
        fun e => e.id == "e1") =
      some { c10Entry with rating := some 4
                           notes := match some "great" with
                                    | some n => some n
                                    | none => c10Entry.notes } :=
  C10_theorem [c10Entry] [] "u1" "e1" 4 (some "great") c10Entry
    (by decide) (by decide) (by decide) (by decide) (by decide) (by decide)

/-! ## Claim C7, amended: single-capable-helper idempotence

The second restructure run performs zero updates when the business has
exactly one active capable helper and the window's live entries share
one service, have pairwise distinct joining times and contain at most
one head.  The development below characterises one run in that
situation and replays it. -/

/-- The bucket comparator's rank: currently-serving first, then
`in_queue`, then the rest. -/
def bucketRank (q : QueueEntry) : Nat :=
  if q.currentPosition == 1 && q.status == .in_queue then 0
  else if q.status == .in_queue then 1 else 2

/-- The non-strict order used by the bucket sort. -/
def bucketLe (a b : QueueEntry) : Prop := bucketCmp a b ≤ 0

instance : DecidableRel bucketLe := fun a b => by
  unfold bucketLe; infer_instance

/-- `bucketLe` is the lexicographic order on `(rank, joiningTime)`,
with all rank-0 entries mutually equivalent. -/
theorem bucketLe_iff (a b : QueueEntry) :
    bucketLe a b ↔ (bucketRank a < bucketRank b ∨
      (bucketRank a = bucketRank b ∧
        (bucketRank a = 0 ∨ a.joiningTime ≤ b.joiningTime))) := by
  by_cases hpa : (a.currentPosition == 1) = true <;>
  by_cases hain : (a.status == QStatus.in_queue) = true <;>
  by_cases hpb : (b.currentPosition == 1) = true <;>
  by_cases hbin : (b.status == QStatus.in_queue) = true <;>
    simp only [bucketLe, bucketCmp, bucketRank, hpa, hain, hpb, hbin,
      Bool.true_and, Bool.false_and, Bool.and_true, Bool.and_false,
      if_true, if_false, bne, Bool.not_true, Bool.not_false,
      Bool.false_eq_true, Bool.true_eq_false, ite_true, ite_false,
      true_and, and_true, true_or, or_true, false_or, iff_true] <;>
    omega

instance : IsTotal QueueEntry bucketLe :=
  ⟨fun a b => by rw [bucketLe_iff, bucketLe_iff]; omega⟩

instance : IsTrans QueueEntry bucketLe :=
  ⟨fun a b c hab hbc => by
    rw [bucketLe_iff] at hab hbc ⊢
    omega⟩

/-- The JavaScript sort is a permutation. -/
theorem jsSortBy_perm (cmp : α → α → Int) (l : List α) :
    (jsSortBy cmp l).Perm l :=
  List.perm_insertionSort _ l

/-- The bucket sort's output is sorted by `bucketLe`. -/
theorem jsSortBy_bucket_sorted (l : List QueueEntry) :
    (jsSortBy bucketCmp l).Pairwise bucketLe :=
  List.sorted_insertionSort bucketLe l

/-- Two lists sorted by `R`, permutations of each other, with `R`
antisymmetric on their elements, are equal. -/
theorem eq_of_perm_of_sorted_local {α : Type} {R : α → α → Prop}
    {l₁ l₂ : List α} (hp : l₁.Perm l₂) (hs₁ : l₁.Pairwise R) (hs₂ : l₂.Pairwise R)
    (hanti : ∀ a ∈ l₁, ∀ b ∈ l₁, R a b → R b a → a = b) : l₁ = l₂ := by
  induction l₁ generalizing l₂ with
  | nil => exact hp.nil_eq
  | cons a t₁ ih =>
    cases l₂ with
    | nil => exact absurd hp.symm.nil_eq (by simp)
    | cons b t₂ =>
    by_cases hab : a = b
    · subst hab
      have ht : t₁.Perm t₂ := hp.cons_inv
      have := ih ht hs₁.of_cons hs₂.of_cons
        (fun x hx y hy => hanti x (List.mem_cons_of_mem _ hx) y
          (List.mem_cons_of_mem _ hy))
      rw [this]
    · exfalso
      have hbmem : b ∈ a :: t₁ := hp.symm.subset (List.mem_cons_self _ _)
      have hamem : a ∈ b :: t₂ := hp.subset (List.mem_cons_self _ _)
      have hbt : b ∈ t₁ := by
        rcases hbmem with _ | h
        · exact absurd rfl hab
        · assumption
      have hat : a ∈ t₂ := by
        rcases hamem with _ | h
        · exact absurd rfl (fun h => hab h.symm)
        · assumption
      have h1 : R a b := List.rel_of_pairwise_cons hs₁ hbt
      have h2 : R b a := List.rel_of_pairwise_cons hs₂ hat
      exact hab (hanti a (List.mem_cons_self _ _) b (List.mem_cons_of_mem _ hbt)
        h1 h2)

/-- An entry the restructure classifies as currently serving. -/
def isHead (q : QueueEntry) : Prop :=
  (q.currentPosition == 1 && q.status == QStatus.in_queue) = true

instance : DecidablePred isHead := fun q => by unfold isHead; infer_instance

theorem bucketRank_eq_zero_iff (q : QueueEntry) :
    bucketRank q = 0 ↔ isHead q := by
  unfold bucketRank isHead
  split_ifs <;> simp_all

theorem bucketRank_of_not_head {q : QueueEntry} (h : ¬ isHead q) :
    bucketRank q = if (q.status == QStatus.in_queue) = true then 1 else 2 := by
  unfold bucketRank isHead at *
  split_ifs <;> simp_all

theorem bucketRank_le_two (q : QueueEntry) : bucketRank q ≤ 2 := by
  unfold bucketRank
  split_ifs <;> omega

theorem bucketRank_of_not_inqueue {q : QueueEntry}
    (h : (q.status == QStatus.in_queue) = false) : bucketRank q = 2 := by
  unfold bucketRank
  rw [if_neg (by simp [h]), if_neg (by simp [h])]

/-- The full field accounting of `assignEntry`: all identity fields
survive, the position, helper and wait are the assigned ones. -/
theorem assignEntry_fields (now : Int) (vid sid : String) (d : Int)
    (hid : String) (pos : Int) (q : QueueEntry) :
    (assignEntry now vid sid d hid pos q).1.id = q.id ∧
    (assignEntry now vid sid d hid pos q).1.status = q.status ∧
    (assignEntry now vid sid d hid pos q).1.joiningTime = q.joiningTime ∧
    (assignEntry now vid sid d hid pos q).1.createdAt = q.createdAt ∧
    (assignEntry now vid sid d hid pos q).1.vendorId = q.vendorId ∧
    (assignEntry now vid sid d hid pos q).1.serviceId = q.serviceId ∧
    (assignEntry now vid sid d hid pos q).1.userId = q.userId ∧
    (assignEntry now vid sid d hid pos q).1.userType = q.userType ∧
    (assignEntry now vid sid d hid pos q).1.preference = q.preference ∧
    (assignEntry now vid sid d hid pos q).1.currentPosition = pos ∧
    (assignEntry now vid sid d hid pos q).1.helperId = hid ∧
    (assignEntry now vid sid d hid pos q).1.estimatedWait = (pos - 1) * d := by
  unfold assignEntry
  dsimp only
  split
  · exact ⟨rfl, rfl, rfl, rfl, rfl, rfl, rfl, rfl, rfl, rfl, rfl, rfl⟩
  · next hch =>
    simp only [Bool.or_eq_true, not_or, Bool.not_eq_true, bne_eq_false_iff_eq]
      at hch
    obtain ⟨⟨h1, h2⟩, h3⟩ := hch
    exact ⟨rfl, rfl, rfl, rfl, rfl, rfl, rfl, rfl, rfl, h1, h2, h3⟩

/-- The new entry values of one bucket run. -/
def primeList (now : Int) (vid sid : String) (d : Int) (hid : String)
    (pos : Int) (l : List QueueEntry) : List QueueEntry :=
  (assignFrom now vid sid d hid pos l).map Prod.fst

theorem primeList_nil (now : Int) (vid sid : String) (d : Int) (hid : String)
    (pos : Int) : primeList now vid sid d hid pos [] = [] := rfl

theorem primeList_cons (now : Int) (vid sid : String) (d : Int) (hid : String)
    (pos : Int) (q : QueueEntry) (t : List QueueEntry) :
    primeList now vid sid d hid pos (q :: t) =
      (assignEntry now vid sid d hid pos q).1 ::
        primeList now vid sid d hid (pos + 1) t := rfl

/-- Identity-field preservation of the bucket run, elementwise. -/
theorem primeList_forall₂_basic (now : Int) (vid sid : String) (d : Int)
    (hid : String) : ∀ (l : List QueueEntry) (pos : Int),
    List.Forall₂ (fun q p =>
      p.id = q.id ∧ p.status = q.status ∧ p.joiningTime = q.joiningTime ∧
      p.createdAt = q.createdAt ∧ p.vendorId = q.vendorId ∧
      p.serviceId = q.serviceId ∧ p.helperId = hid)
      l (primeList now vid sid d hid pos l) := by
  intro l
  induction l with
  | nil => intro pos; exact List.Forall₂.nil
  | cons q t ih =>
    intro pos
    rw [primeList_cons]
    obtain ⟨f1, f2, f3, f4, f5, f6, _, _, _, _, f11, _⟩ :=
      assignEntry_fields now vid sid d hid pos q
    exact List.Forall₂.cons ⟨f1, f2, f3, f4, f5, f6, f11⟩ (ih (pos + 1))

/-- From position 2 on, no primed entry is a head. -/
theorem primeList_forall₂_ge2 (now : Int) (vid sid : String) (d : Int)
    (hid : String) : ∀ (l : List QueueEntry) (pos : Int), 2 ≤ pos →
    List.Forall₂ (fun q p =>
      p.status = q.status ∧ p.joiningTime = q.joiningTime ∧ ¬ isHead p)
      l (primeList now vid sid d hid pos l) := by
  intro l
  induction l with
  | nil => intro pos _; exact List.Forall₂.nil
  | cons q t ih =>
    intro pos hpos
    rw [primeList_cons]
    obtain ⟨_, f2, f3, _, _, _, _, _, _, f10, _, _⟩ :=
      assignEntry_fields now vid sid d hid pos q
    refine List.Forall₂.cons ⟨f2, f3, ?_⟩ (ih (pos + 1) (by omega))
    intro hh
    unfold isHead at hh
    rw [Bool.and_eq_true] at hh
    have : (assignEntry now vid sid d hid pos q).1.currentPosition = 1 :=
      eq_of_beq hh.1
    omega

/-- Every right element of a `Forall₂` has a related left partner. -/
theorem forall₂_exists_left {α β : Type} {T : α → β → Prop}
    {l : List α} {l' : List β} (h : List.Forall₂ T l l') :
    ∀ b ∈ l', ∃ a ∈ l, T a b := by
  induction h with
  | nil => intro b hb; simp at hb
  | cons hT _ ih =>
    intro b hb
    rcases hb with _ | ⟨_, hb⟩
    · exact ⟨_, List.mem_cons_self _ _, hT⟩
    · obtain ⟨a, ha, hTa⟩ := ih b hb
      exact ⟨a, List.mem_cons_of_mem _ ha, hTa⟩

/-- Pairwise facts transfer along a `Forall₂` correspondence. -/
theorem pairwise_of_forall₂ {α β : Type} {T : α → β → Prop}
    {R : α → α → Prop} {S : β → β → Prop} {l : List α} {l' : List β}
    (hT : List.Forall₂ T l l') (hR : l.Pairwise R)
    (rule : ∀ a ∈ l, ∀ b ∈ l, ∀ a' b', T a a' → T b b' → R a b → S a' b') :
    l'.Pairwise S := by
  induction hT with
  | nil => exact List.Pairwise.nil
  | @cons a a' la la' hTa hTl ih =>
    rcases hR with _ | ⟨hhead, htail⟩
    refine List.Pairwise.cons ?_ (ih htail
      (fun x hx y hy => rule x (List.mem_cons_of_mem _ hx) y
        (List.mem_cons_of_mem _ hy)))
    intro b' hb'
    obtain ⟨b, hb, hTb⟩ := forall₂_exists_left hTl b' hb'
    exact rule a (List.mem_cons_self _ _) b (List.mem_cons_of_mem _ hb)
      a' b' hTa hTb (hhead b hb)

/-- A bucket list with no heads stays sorted after priming from
position ≥ 2. -/
theorem primeList_sorted_ge2 (now : Int) (vid sid : String) (d : Int)
    (hid : String) (l : List QueueEntry) (pos : Int) (hpos : 2 ≤ pos)
    (hl : l.Pairwise bucketLe) (hnh : ∀ q ∈ l, ¬ isHead q) :
    (primeList now vid sid d hid pos l).Pairwise bucketLe := by
  refine pairwise_of_forall₂ (primeList_forall₂_ge2 now vid sid d hid l pos hpos)
    hl ?_
  intro a ha b hb a' b' hTa hTb hab
  obtain ⟨hsa, hja, hha'⟩ := hTa
  obtain ⟨hsb, hjb, hhb'⟩ := hTb
  rw [bucketLe_iff] at hab ⊢
  have hra : bucketRank a = if (a.status == QStatus.in_queue) = true then 1 else 2 :=
    bucketRank_of_not_head (hnh a ha)
  have hrb : bucketRank b = if (b.status == QStatus.in_queue) = true then 1 else 2 :=
    bucketRank_of_not_head (hnh b hb)
  have hra' : bucketRank a' = if (a.status == QStatus.in_queue) = true then 1 else 2 := by
    rw [bucketRank_of_not_head hha', hsa]
  have hrb' : bucketRank b' = if (b.status == QStatus.in_queue) = true then 1 else 2 := by
    rw [bucketRank_of_not_head hhb', hsb]
  rw [hja, hjb]
  rw [hra, hrb] at hab
  rw [hra', hrb']
  split_ifs at hab ⊢ <;> exact hab

/-- Priming a sorted bucket with at most one head keeps it sorted. -/
theorem primeList_sorted_one (now : Int) (vid sid : String) (d : Int)
    (hid : String) (x : QueueEntry) (rest : List QueueEntry)
    (hs : (x :: rest).Pairwise bucketLe)
    (hh : (x :: rest).Pairwise fun a b => ¬(isHead a ∧ isHead b)) :
    (primeList now vid sid d hid 1 (x :: rest)).Pairwise bucketLe := by
  rw [primeList_cons]
  have hnh_rest : ∀ q ∈ rest, ¬ isHead q := by
    intro q hq hqh
    have hle : bucketLe x q := List.rel_of_pairwise_cons hs hq
    rw [bucketLe_iff] at hle
    have hrq : bucketRank q = 0 := (bucketRank_eq_zero_iff q).mpr hqh
    have hrx : bucketRank x = 0 := by omega
    exact (List.rel_of_pairwise_cons hh hq)
      ⟨(bucketRank_eq_zero_iff x).mp hrx, hqh⟩
  refine List.Pairwise.cons ?_
    (primeList_sorted_ge2 now vid sid d hid rest 2 (by omega) hs.of_cons hnh_rest)
  intro y hy
  obtain ⟨q, hq, hsq, hjq, hhy⟩ :=
    forall₂_exists_left (primeList_forall₂_ge2 now vid sid d hid rest 2
      (by omega)) y hy
  obtain ⟨_, hxs, hxj, _, _, _, _, _, _, hxp, _, _⟩ :=
    assignEntry_fields now vid sid d hid 1 x
  by_cases hin : (x.status == QStatus.in_queue) = true
  · have hx'head : isHead (assignEntry now vid sid d hid 1 x).1 := by
      unfold isHead
      rw [Bool.and_eq_true]
      constructor
      · rw [hxp]; rfl
      · rw [hxs]; exact hin
    rw [bucketLe_iff]
    left
    rw [(bucketRank_eq_zero_iff _).mpr hx'head]
    have hry := bucketRank_of_not_head hhy
    split_ifs at hry <;> omega
  · have hlex : bucketLe x q := List.rel_of_pairwise_cons hs hq
    rw [bucketLe_iff] at hlex
    have hrx : bucketRank x = 2 := bucketRank_of_not_inqueue (by simpa using hin)
    have hrq2 : bucketRank q = 2 := by
      have := bucketRank_le_two q
      omega
    have hjt : x.joiningTime ≤ q.joiningTime := by
      rcases hlex with hlt | ⟨_, h0 | hle⟩
      · omega
      · omega
      · exact hle
    have hqin : (q.status == QStatus.in_queue) = false := by
      have hr := bucketRank_of_not_head (hnh_rest q hq)
      split_ifs at hr with hcase
      · omega
      · simpa using hcase
    rw [bucketLe_iff]
    right
    have hrx' : bucketRank (assignEntry now vid sid d hid 1 x).1 = 2 :=
      bucketRank_of_not_inqueue (by rw [hxs]; simpa using hin)
    have hry : bucketRank y = 2 := bucketRank_of_not_inqueue (by rw [hsq]; exact hqin)
    refine ⟨by omega, Or.inr ?_⟩
    rw [hxj, hjq]
    exact hjt

/-- Joining-time distinctness survives priming. -/
theorem primeList_jt_ne (now : Int) (vid sid : String) (d : Int)
    (hid : String) (l : List QueueEntry) (pos : Int)
    (h : l.Pairwise fun a b => a.joiningTime ≠ b.joiningTime) :
    (primeList now vid sid d hid pos l).Pairwise
      fun a b => a.joiningTime ≠ b.joiningTime := by
  refine pairwise_of_forall₂ (primeList_forall₂_basic now vid sid d hid l pos)
    h ?_
  intro a _ b _ a' b' hTa hTb hab
  rw [hTa.2.2.1, hTb.2.2.1]
  exact hab

/-- An entry already carrying its assigned position, helper and wait is
written back unchanged with no `hasChanges` flag. -/
theorem assignEntry_of_fixed (now : Int) (vid sid : String) (d : Int)
    (hid : String) (pos : Int) (q : QueueEntry)
    (hpos : q.currentPosition = pos) (hh : q.helperId = hid)
    (hw : q.estimatedWait = (pos - 1) * d) :
    assignEntry now vid sid d hid pos q = (q, false) := by
  unfold assignEntry
  dsimp only
  rw [if_neg (by simp [hpos, hh, hw])]

/-- Re-running the position loop over its own output changes
nothing. -/
theorem assignFrom_no_change (now2 now : Int) (vid sid : String) (d : Int)
    (hid : String) : ∀ (l : List QueueEntry) (pos : Int),
    assignFrom now2 vid sid d hid pos (primeList now vid sid d hid pos l) =
      (primeList now vid sid d hid pos l).map fun q => (q, false) := by
  intro l
  induction l with
  | nil => intro pos; rfl
  | cons q t ih =>
    intro pos
    rw [primeList_cons]
    obtain ⟨_, _, _, _, _, _, _, _, _, f10, f11, f12⟩ :=
      assignEntry_fields now vid sid d hid pos q
    show assignEntry now2 vid sid d hid pos (assignEntry now vid sid d hid pos q).1 ::
        assignFrom now2 vid sid d hid (pos + 1)
          (primeList now vid sid d hid (pos + 1) t) =
      ((assignEntry now vid sid d hid pos q).1, false) ::
        (primeList now vid sid d hid (pos + 1) t).map (fun q => (q, false))
    rw [assignEntry_of_fixed now2 vid sid d hid pos _ f10 f11 f12, ih (pos + 1)]

/-- `bucketLe` is antisymmetric on a list with pairwise-distinct
joining times and mutually-equal heads. -/
theorem bucketLe_antisymm_on {l : List QueueEntry}
    (hjt : l.Pairwise fun a b => a.joiningTime ≠ b.joiningTime)
    (hhd : ∀ a ∈ l, ∀ b ∈ l, isHead a → isHead b → a = b) :
    ∀ a ∈ l, ∀ b ∈ l, bucketLe a b → bucketLe b a → a = b := by
  intro a ha b hb h1 h2
  by_cases hab : a = b
  · exact hab
  · rw [bucketLe_iff] at h1 h2
    by_cases h0 : bucketRank a = 0
    · exact hhd a ha b hb ((bucketRank_eq_zero_iff a).mp h0)
        ((bucketRank_eq_zero_iff b).mp (by omega))
    · have hjteq : a.joiningTime = b.joiningTime := by omega
      have hne := List.Pairwise.forall
        (R := fun a b : QueueEntry => a.joiningTime ≠ b.joiningTime)
        (fun x y h e => h e.symm) hjt ha hb hab
      exact absurd hjteq hne

/-- The bucket-insertion order of a processed group: currently
serving, then SPECIFIC, then hold, then flexible. -/
def bucketOrder (capable : List ConnectedHelper) (group : List QueueEntry) :
    List QueueEntry :=
  (classifyGroup capable group).1 ++ (classifyGroup capable group).2.1 ++
    (classifyGroup capable group).2.2.1 ++ (classifyGroup capable group).2.2.2

/-- One classification step moves exactly the handled entry. -/
theorem classifyStep_perm (capable : List ConnectedHelper)
    (acc : List QueueEntry × List QueueEntry × List QueueEntry × List QueueEntry)
    (e : QueueEntry) :
    ((classifyStep capable acc e).1 ++ (classifyStep capable acc e).2.1 ++
     (classifyStep capable acc e).2.2.1 ++
     (classifyStep capable acc e).2.2.2).Perm
      ((acc.1 ++ acc.2.1 ++ acc.2.2.1 ++ acc.2.2.2) ++ [e]) := by
  obtain ⟨s, sp, h, f⟩ := acc
  simp only [classifyStep]
  split_ifs <;>
    · rw [List.perm_iff_count]
      intro a
      simp only [List.count_append]
      omega

/-- Classification partitions the group. -/
theorem classify_foldl_perm (capable : List ConnectedHelper) :
    ∀ (group : List QueueEntry)
      (acc : List QueueEntry × List QueueEntry × List QueueEntry × List QueueEntry),
    (((group.foldl (classifyStep capable) acc).1 ++
      (group.foldl (classifyStep capable) acc).2.1 ++
      (group.foldl (classifyStep capable) acc).2.2.1 ++
      (group.foldl (classifyStep capable) acc).2.2.2)).Perm
        ((acc.1 ++ acc.2.1 ++ acc.2.2.1 ++ acc.2.2.2) ++ group) := by
  intro group
  induction group with
  | nil => intro acc; simp
  | cons e t ih =>
    intro acc
    rw [List.foldl_cons]
    refine (ih (classifyStep capable acc e)).trans ?_
    have h1 := classifyStep_perm capable acc e
    rw [List.perm_iff_count] at h1 ⊢
    intro a
    have h2 := h1 a
    simp only [List.count_append, List.count_cons, List.count_nil] at h2 ⊢
    omega

theorem bucketOrder_perm (capable : List ConnectedHelper)
    (group : List QueueEntry) : (bucketOrder capable group).Perm group := by
  have := classify_foldl_perm capable group ([], [], [], [])
  simpa [bucketOrder, classifyGroup] using this

/-- SPECIFIC-classified entries sit with a capable helper. -/
theorem classifyStep_specific_mem (capable : List ConnectedHelper)
    (acc : List QueueEntry × List QueueEntry × List QueueEntry × List QueueEntry)
    (e q : QueueEntry) (hq : q ∈ (classifyStep capable acc e).2.1) :
    q ∈ acc.2.1 ∨ (q = e ∧
      (capable.any fun hh => hh.helperId == q.helperId) = true) := by
  obtain ⟨s, sp, h, f⟩ := acc
  simp only [classifyStep] at hq
  split_ifs at hq with h1 h2 h3 h4 <;>
    first
      | exact Or.inl hq
      | (rcases List.mem_append.mp hq with h' | h'
         · exact Or.inl h'
         · rcases List.mem_singleton.mp h' with rfl
           exact Or.inr ⟨rfl, h3⟩)

theorem classify_specific_capable (capable : List ConnectedHelper) :
    ∀ (group : List QueueEntry)
      (acc : List QueueEntry × List QueueEntry × List QueueEntry × List QueueEntry),
    (∀ q ∈ acc.2.1, (capable.any fun hh => hh.helperId == q.helperId) = true) →
    ∀ q ∈ (group.foldl (classifyStep capable) acc).2.1,
      (capable.any fun hh => hh.helperId == q.helperId) = true := by
  intro group
  induction group with
  | nil => intro acc hacc; exact hacc
  | cons e t ih =>
    intro acc hacc
    rw [List.foldl_cons]
    refine ih _ ?_
    intro q hq
    rcases classifyStep_specific_mem capable acc e q hq with h | ⟨rfl, h⟩
    · exact hacc q h
    · exact h

/-- `groupKeys` of a nonempty single-service list. -/
theorem groupKeys_single {s : String} : ∀ (l : List QueueEntry),
    l ≠ [] → (∀ q ∈ l, q.serviceId = s) → groupKeys l = [s] := by
  have aux : ∀ (l : List QueueEntry), (∀ q ∈ l, q.serviceId = s) →
      l.foldl (fun ks q => if ks.contains q.serviceId then ks else ks ++ [q.serviceId])
        [s] = [s] := by
    intro l
    induction l with
    | nil => intro _; rfl
    | cons q t ih =>
      intro hall
      rw [List.foldl_cons]
      have : q.serviceId = s := hall q (List.mem_cons_self _ _)
      rw [if_pos (by simp [this])]
      exact ih fun x hx => hall x (List.mem_cons_of_mem _ hx)
  intro l hne hall
  cases l with
  | nil => exact absurd rfl hne
  | cons q t =>
    unfold groupKeys
    rw [List.foldl_cons]
    rw [if_neg (by simp)]
    have hq : q.serviceId = s := hall q (List.mem_cons_self _ _)
    rw [show [] ++ [q.serviceId] = [s] by simp [hq]]
    exact aux t fun x hx => hall x (List.mem_cons_of_mem _ hx)

/-! ### Single-bucket collapse -/

theorem bucketPush_single (k : String) (l : List QueueEntry) (hid : String)
    (q : QueueEntry) (h : (k == hid) = true) :
    bucketPush [(k, l)] hid q = [(k, l ++ [q])] := by
  have hk : k = hid := eq_of_beq h
  subst hk
  simp [bucketPush]

theorem pushPinned_single (h : ConnectedHelper) (l : List QueueEntry)
    (q : QueueEntry) :
    pushPinned [h] [(h.helperId, l)] q = [(h.helperId, l ++ [q])] := by
  unfold pushPinned
  split
  · next hany =>
    refine bucketPush_single _ _ _ _ ?_
    simp only [List.any_cons, List.any_nil, Bool.or_false] at hany
    rw [eq_of_beq hany]
    exact beq_self_eq_true _
  · exact bucketPush_single _ _ _ _ (beq_self_eq_true _)

theorem foldl_pushPinned_single (h : ConnectedHelper) :
    ∀ (l : List QueueEntry) (acc : List QueueEntry),
    l.foldl (pushPinned [h]) [(h.helperId, acc)] = [(h.helperId, acc ++ l)] := by
  intro l
  induction l with
  | nil => intro acc; simp
  | cons q t ih =>
    intro acc
    rw [List.foldl_cons, pushPinned_single, ih, List.append_assoc]
    rfl

theorem foldl_bucketPushOwn_single (h : ConnectedHelper) :
    ∀ (l : List QueueEntry) (acc : List QueueEntry),
    (∀ q ∈ l, (h.helperId == q.helperId) = true) →
    l.foldl (fun a q => bucketPush a q.helperId q) [(h.helperId, acc)] =
      [(h.helperId, acc ++ l)] := by
  intro l
  induction l with
  | nil => intro acc _; simp
  | cons q t ih =>
    intro acc hall
    rw [List.foldl_cons,
      bucketPush_single _ _ _ _ (hall q (List.mem_cons_self _ _)),
      ih _ fun x hx => hall x (List.mem_cons_of_mem _ hx), List.append_assoc]
    rfl

theorem flexStep_single (h : ConnectedHelper) (acc : List QueueEntry)
    (q : QueueEntry) :
    flexStep { order := [h], assign := [(h.helperId, acc)] } q =
      { order := [h], assign := [(h.helperId, acc ++ [q])] } := by
  show Buckets.mk [h] (bucketPush [(h.helperId, acc)] h.helperId q) = _
  rw [bucketPush_single _ _ _ _ (beq_self_eq_true _)]

theorem assignFlexibles_single (h : ConnectedHelper) :
    ∀ (flex : List QueueEntry) (acc : List QueueEntry),
    assignFlexibles { order := [h], assign := [(h.helperId, acc)] } flex =
      { order := [h], assign := [(h.helperId, acc ++ flex)] } := by
  intro flex
  induction flex with
  | nil => intro acc; simp [assignFlexibles]
  | cons q t ih =>
    intro acc
    show assignFlexibles (flexStep _ q) t = _
    rw [flexStep_single, ih (acc ++ [q]), List.append_assoc]
    rfl

/-- With a single capable helper the whole group lands in one bucket
in classification order, and the positions are assigned over its
`bucketCmp`-sorted form. -/
theorem processGroup_single (now : Int) (vid : String) (h : ConnectedHelper)
    (s : String) (d : Int) (group : List QueueEntry)
    (hcap : h.associatedServices.contains s = true) :
    processGroup now vid [h] s d group =
      assignFrom now vid s d h.helperId 1
        (jsSortBy bucketCmp (bucketOrder [h] group)) := by
  unfold processGroup
  dsimp only
  have hmem : s ∈ h.associatedServices := by simpa using hcap
  rw [show List.filter (fun hh => hh.associatedServices.contains s) [h] = [h] by
    simp [hmem]]
  rw [if_neg (by simp)]
  rw [show (List.map (fun hh => (hh.helperId, ([] : List QueueEntry))) [h]) =
    [(h.helperId, ([] : List QueueEntry))] from rfl]
  rw [foldl_pushPinned_single]
  rw [foldl_bucketPushOwn_single h _ _ (by
    intro q hq
    have := classify_specific_capable [h] group ([], [], [], []) (by simp) q hq
    simp only [List.any_cons, List.any_nil, Bool.or_false] at this
    rw [eq_of_beq this]
    exact beq_self_eq_true _)]
  rw [foldl_pushPinned_single]
  rw [assignFlexibles_single]
  show [] ++ assignBucket now vid s d h.helperId _ = _
  rw [List.nil_append, assignBucket]
  simp only [bucketOrder, List.nil_append, List.append_assoc]

/-- A restructure over an empty window is a committed no-op. -/
theorem restructure_single_empty (db : List QueueEntry)
    (vendors : List Vendor) (rateCards : List RateCard) (vid : String)
    (t0 t1 now : Int) (vendor : Vendor) (h : ConnectedHelper)
    (hv : vendors.find? (fun v => v.id == vid && v.accountType == .owner &&
      !v.isDeleted && !v.isSuspended && v.active) = some vendor)
    (hhelp : vendor.connectedHelpers.filter (fun ch =>
      ch.status == .accepted && ch.active) = [h])
    (hemp : windowFilter vid t0 t1 db = []) :
    restructure db vendors rateCards vid t0 t1 now = .ok db 0 [] [] := by
  unfold restructure
  rw [hv]
  dsimp only
  rw [hhelp, hemp]
  rfl

/-- The committed single-capable-helper run: the whole window forms
one bucket on `h`, sorted by `bucketCmp`, positions assigned from 1,
only the changed entries written back. -/
theorem restructure_single_run (db : List QueueEntry)
    (vendors : List Vendor) (rateCards : List RateCard) (vid : String)
    (t0 t1 now : Int) (vendor : Vendor) (h : ConnectedHelper) (s : String)
    (rc : RateCard)
    (hv : vendors.find? (fun v => v.id == vid && v.accountType == .owner &&
      !v.isDeleted && !v.isSuspended && v.active) = some vendor)
    (hhelp : vendor.connectedHelpers.filter (fun ch =>
      ch.status == .accepted && ch.active) = [h])
    (hcap : h.associatedServices.contains s = true)
    (hrc : rateCards.find? (fun c => c.id == s) = some rc)
    (hne : windowFilter vid t0 t1 db ≠ [])
    (hsid : ∀ q ∈ windowFilter vid t0 t1 db, q.serviceId = s) :
    ∃ n, restructure db vendors rateCards vid t0 t1 now =
      .ok (applyUpdates db
            (((assignFrom now vid s rc.duration h.helperId 1
                (jsSortBy bucketCmp (bucketOrder [h]
                  (jsSortBy jtCmp (windowFilter vid t0 t1 db))))).filter
              (fun p => p.2)).map Prod.fst))
          (((assignFrom now vid s rc.duration h.helperId 1
              (jsSortBy bucketCmp (bucketOrder [h]
                (jsSortBy jtCmp (windowFilter vid t0 t1 db))))).filter
            (fun p => p.2)).map Prod.fst).length
          (assignFrom now vid s rc.duration h.helperId 1
            (jsSortBy bucketCmp (bucketOrder [h]
              (jsSortBy jtCmp (windowFilter vid t0 t1 db))))) n := by
  have hAQmem : ∀ q ∈ jsSortBy jtCmp (windowFilter vid t0 t1 db),
      q.serviceId = s := by
    intro q hq
    exact hsid q ((jsSortBy_perm jtCmp _).subset hq)
  have hAQne : jsSortBy jtCmp (windowFilter vid t0 t1 db) ≠ [] := by
    intro hnil
    exact hne (List.eq_nil_of_length_eq_zero (by
      have := (jsSortBy_perm jtCmp (windowFilter vid t0 t1 db)).length_eq
      rw [hnil] at this
      simpa using this.symm))
  unfold restructure
  rw [hv]
  dsimp only
  rw [hhelp]
  rw [if_neg (by simp)]
  rw [if_neg (by
    simp only [List.isEmpty_iff]
    exact fun hh => hAQne hh)]
  rw [if_neg (by
    simp only [List.any_eq_true, not_exists, not_and]
    intro q hq
    rw [hAQmem q hq, hrc]
    simp)]
  rw [groupKeys_single _ hAQne hAQmem]
  rw [List.foldl_cons, List.foldl_nil, List.nil_append]
  have hfe : (jsSortBy jtCmp (windowFilter vid t0 t1 db)).filter
      (fun q => q.serviceId == s) =
      jsSortBy jtCmp (windowFilter vid t0 t1 db) :=
    List.filter_eq_self.mpr (by
      intro q hq
      simp [hAQmem q hq])
  rw [hfe]
  rw [hrc]
  simp only [Option.map_some', Option.getD_some]
  rw [processGroup_single now vid h s rc.duration _ hcap]
  exact ⟨_, rfl⟩

/-- The cons unfolding of the position loop. -/
theorem assignFrom_cons (now : Int) (vid sid : String) (d : Int) (hid : String)
    (pos : Int) (q : QueueEntry) (t : List QueueEntry) :
    assignFrom now vid sid d hid pos (q :: t) =
      assignEntry now vid sid d hid pos q ::
        assignFrom now vid sid d hid (pos + 1) t := rfl

/-- `find?` returns the unique element satisfying the predicate. -/
theorem find_eq_some_of_unique {α : Type} {p : α → Bool} {a : α} :
    ∀ (l : List α), a ∈ l → p a = true → (∀ b ∈ l, p b = true → b = a) →
    l.find? p = some a := by
  intro l
  induction l with
  | nil => intro ha _ _; simp at ha
  | cons b t ih =>
    intro ha hpa huniq
    by_cases hpb : p b = true
    · rw [List.find?_cons_of_pos _ hpb]
      exact congrArg some (huniq b (List.mem_cons_self _ _) hpb)
    · rw [List.find?_cons_of_neg _ (by simpa using hpb)]
      have hat : a ∈ t := by
        rcases ha with _ | ⟨_, h⟩
        · exact absurd hpa hpb
        · assumption
      exact ih hat hpa fun c hc hpc => huniq c (List.mem_cons_of_mem _ hc) hpc

/-- `assignEntry` either flags a change or passes the entry through. -/
theorem assignEntry_eq (now : Int) (vid sid : String) (d : Int) (hid : String)
    (pos : Int) (q : QueueEntry) :
    (assignEntry now vid sid d hid pos q).2 = true ∨
      assignEntry now vid sid d hid pos q = (q, false) := by
  unfold assignEntry
  dsimp only
  split
  · exact Or.inl rfl
  · exact Or.inr rfl

/-- The primed bucket holds at most one head. -/
theorem primeList_one_head (now : Int) (vid sid : String) (d : Int)
    (hid : String) (x : QueueEntry) (rest : List QueueEntry) :
    (primeList now vid sid d hid 1 (x :: rest)).Pairwise
      fun a b => ¬(isHead a ∧ isHead b) := by
  rw [primeList_cons]
  have hall : ∀ y ∈ primeList now vid sid d hid (1 + 1) rest, ¬ isHead y := by
    intro y hy
    obtain ⟨q, hq, _, _, hhy⟩ := forall₂_exists_left
      (primeList_forall₂_ge2 now vid sid d hid rest (1 + 1) (by omega)) y hy
    exact hhy
  refine List.Pairwise.cons ?_ ?_
  · intro y hy hcon
    exact hall y hy hcon.2
  · exact List.pairwise_of_forall_mem_list fun a ha b hb hcon => hall a ha hcon.1

/-- Re-sorting any rearrangement of the primed bucket reproduces it
exactly, when the source bucket was sorted with distinct joining times
and at most one head. -/
theorem resorted_prime (now : Int) (vid sid : String) (d : Int) (hid : String)
    (l : List QueueEntry) (hne : l ≠ [])
    (hs : l.Pairwise bucketLe)
    (hjt : l.Pairwise fun a b => a.joiningTime ≠ b.joiningTime)
    (hh : l.Pairwise fun a b => ¬(isHead a ∧ isHead b))
    (l2 : List QueueEntry)
    (hperm : l2.Perm (primeList now vid sid d hid 1 l))
    (hsorted2 : l2.Pairwise bucketLe) :
    l2 = primeList now vid sid d hid 1 l := by
  obtain ⟨x, rest, rfl⟩ := List.exists_cons_of_ne_nil hne
  have hsymm_jt : Symmetric fun a b : QueueEntry =>
      a.joiningTime ≠ b.joiningTime := by
    intro a b hab
    exact fun e => hab e.symm
  have hsymm_hd : Symmetric fun a b : QueueEntry =>
      ¬(isHead a ∧ isHead b) := by
    intro a b hab hc
    exact hab ⟨hc.2, hc.1⟩
  have hjt2 : l2.Pairwise fun a b => a.joiningTime ≠ b.joiningTime :=
    (hperm.pairwise_iff fun h => hsymm_jt h).mpr
      (primeList_jt_ne now vid sid d hid (x :: rest) 1 hjt)
  have hhd2 : l2.Pairwise fun a b => ¬(isHead a ∧ isHead b) :=
    (hperm.pairwise_iff fun h => hsymm_hd h).mpr
      (primeList_one_head now vid sid d hid x rest)
  refine eq_of_perm_of_sorted_local hperm hsorted2
    (primeList_sorted_one now vid sid d hid x rest hs hh) ?_
  intro a ha b hb h1 h2
  refine bucketLe_antisymm_on hjt2 ?_ a ha b hb h1 h2
  intro a2 ha2 b2 hb2 hha hhb
  by_contra hne2
  exact (List.Pairwise.forall hsymm_hd hhd2 ha2 hb2 hne2) ⟨hha, hhb⟩

/-- No already-primed entry gets flagged by the filter. -/
theorem filter_snd_of_false (l : List QueueEntry) :
    ((l.map fun q => (q, false)).filter fun p => p.2) = [] := by
  induction l with
  | nil => rfl
  | cons q t ih => simp [ih]

/-- `applyUpdates` with nothing to write is the identity. -/
theorem applyUpdates_nil (db : List QueueEntry) : applyUpdates db [] = db := by
  simp [applyUpdates]

/-- `windowFilter` commutes with a pointwise field-preserving map. -/
theorem windowFilter_map (vid : String) (t0 t1 : Int) (db : List QueueEntry)
    (f : QueueEntry → QueueEntry)
    (hf : ∀ e ∈ db, (f e).vendorId = e.vendorId ∧ (f e).status = e.status ∧
      (f e).createdAt = e.createdAt) :
    windowFilter vid t0 t1 (db.map f) = (windowFilter vid t0 t1 db).map f := by
  unfold windowFilter
  rw [List.filter_map]
  refine congrArg (List.map f) (List.filter_congr ?_)
  intro e he
  obtain ⟨h1, h2, h3⟩ := hf e he
  simp [Function.comp, h1, h2, h3]

/-- The committed write-back of the changed entries, read back through
`find?`, reproduces the primed bucket pointwise. -/
theorem map_find_eq_primeList (now : Int) (vid sid : String) (d : Int)
    (hid : String) (changed : List QueueEntry) :
    ∀ (l : List QueueEntry) (pos : Int),
    (l.map QueueEntry.id).Nodup →
    (∀ p ∈ assignFrom now vid sid d hid pos l, p.2 = true → p.1 ∈ changed) →
    (∀ u ∈ changed, ∀ q ∈ l, u.id = q.id →
        (u, true) ∈ assignFrom now vid sid d hid pos l) →
    l.map (fun e => (changed.find? fun u => u.id == e.id).getD e) =
      primeList now vid sid d hid pos l := by
  intro l
  induction l with
  | nil => intro pos _ _ _; rfl
  | cons q t ih =>
    intro pos hnd hmem honly
    have htid : ∀ q' ∈ t, q'.id ≠ q.id := by
      intro q' hq' he
      exact (List.nodup_cons.mp hnd).1 (he ▸ List.mem_map_of_mem QueueEntry.id hq')
    have htail_pair_id : ∀ p ∈ assignFrom now vid sid d hid (pos + 1) t,
        p.1.id ≠ q.id := by
      intro p hp
      obtain ⟨pos', q', hq', rfl⟩ := mem_assignFrom hp
      rw [(assignEntry_fields now vid sid d hid pos' q').1]
      exact htid q' hq'
    have hprid : (assignEntry now vid sid d hid pos q).1.id = q.id :=
      (assignEntry_fields now vid sid d hid pos q).1
    have hhead : (changed.find? fun u => u.id == q.id).getD q =
        (assignEntry now vid sid d hid pos q).1 := by
      rcases assignEntry_eq now vid sid d hid pos q with hflag | hpair
      · have hpmem : (assignEntry now vid sid d hid pos q).1 ∈ changed := by
          refine hmem _ ?_ hflag
          rw [assignFrom_cons]
          exact List.mem_cons_self _ _
        have hfind : changed.find? (fun u => u.id == q.id) =
            some (assignEntry now vid sid d hid pos q).1 := by
          refine find_eq_some_of_unique changed hpmem (by simp [hprid]) ?_
          intro u hu hbeq
          have hin := honly u hu q (List.mem_cons_self _ _) (eq_of_beq hbeq)
          rw [assignFrom_cons] at hin
          rcases List.mem_cons.mp hin with heq | hin
          · exact congrArg Prod.fst heq
          · exact absurd (eq_of_beq hbeq) (htail_pair_id (u, true) hin)
        rw [hfind]
        rfl
      · have hfind : changed.find? (fun u => u.id == q.id) = none := by
          rw [List.find?_eq_none]
          intro u hu hbeq
          have hin := honly u hu q (List.mem_cons_self _ _) (eq_of_beq hbeq)
          rw [assignFrom_cons] at hin
          rcases List.mem_cons.mp hin with heq | hin
          · have h2 := congrArg Prod.snd heq
            rw [hpair] at h2
            simp at h2
          · exact (htail_pair_id (u, true) hin) (eq_of_beq hbeq)
        rw [hfind, hpair]
        rfl
    have htail := ih (pos + 1) (List.nodup_cons.mp hnd).2
      (fun p hp h2 => hmem p
        (by rw [assignFrom_cons]; exact List.mem_cons_of_mem _ hp) h2)
      (by
        intro u hu q' hq' hue
        have hin := honly u hu q' (List.mem_cons_of_mem _ hq') hue
        rw [assignFrom_cons] at hin
        rcases List.mem_cons.mp hin with heq | hin
        · exfalso
          have h1 : u = (assignEntry now vid sid d hid pos q).1 :=
            congrArg Prod.fst heq
          have h2 : u.id = q.id := by rw [h1, hprid]
          exact (htid q' hq') (hue.symm.trans h2)
        · exact hin)
    simp only [List.map_cons, primeList_cons]
    rw [hhead, htail]

set_option maxHeartbeats 1600000 in
/-- C7: restructure is not idempotent in general — with two
or more capable helpers the greedy flexible re-balance of the second
run can move an entry (see the counterexample) — but in the
single-capable-helper case it is: when the vendor has exactly one
active capable helper for the (single) service of the window's live
entries, the entries have pairwise-distinct joining times and at most
one currently-serving head, and the database ids are distinct, the
first run commits some database and a second back-to-back run over
that database performs zero updates. -/
theorem C7_amended (db : List QueueEntry) (vendors : List Vendor)
    (rateCards : List RateCard) (vid : String) (t0 t1 now : Int)
    (vendor : Vendor) (h : ConnectedHelper) (s : String) (rc : RateCard)
    (hv : vendors.find? (fun v => v.id == vid && v.accountType == .owner &&
      !v.isDeleted && !v.isSuspended && v.active) = some vendor)
    (hhelp : vendor.connectedHelpers.filter (fun ch =>
      ch.status == .accepted && ch.active) = [h])
    (hcap : h.associatedServices.contains s = true)
    (hrc : rateCards.find? (fun c => c.id == s) = some rc)
    (hsid : ∀ q ∈ windowFilter vid t0 t1 db, q.serviceId = s)
    (hjt : (windowFilter vid t0 t1 db).Pairwise
      fun a b => a.joiningTime ≠ b.joiningTime)
    (hhead : (windowFilter vid t0 t1 db).Pairwise
      fun a b => ¬(isHead a ∧ isHead b))
    (hnodup : (db.map QueueEntry.id).Nodup) :
    ∃ db1 c1 a1 n1 a2 n2,
      restructure db vendors rateCards vid t0 t1 now =
        .ok db1 c1 a1 n1 ∧
      restructure db1 vendors rateCards vid t0 t1 now =
        .ok db1 0 a2 n2 := by
  by_cases hemp : windowFilter vid t0 t1 db = []
  · have h1 := restructure_single_empty db vendors rateCards vid t0 t1 now
      vendor h hv hhelp hemp
    exact ⟨db, 0, [], [], [], [], h1, h1⟩
  · obtain ⟨nf1, hrun1⟩ := restructure_single_run db vendors rateCards vid t0 t1
      now vendor h s rc hv hhelp hcap hrc hemp hsid
    set F := windowFilter vid t0 t1 db with hFdef
    set sorted1 := jsSortBy bucketCmp (bucketOrder [h] (jsSortBy jtCmp F))
      with hs1def
    set pairs1 := assignFrom now vid s rc.duration h.helperId 1 sorted1
      with hp1def
    set changed1 := (pairs1.filter fun p => p.2).map Prod.fst with hc1def
    have hperm_s1 : sorted1.Perm F := by
      rw [hs1def]
      exact ((jsSortBy_perm bucketCmp _).trans (bucketOrder_perm [h] _)).trans
        (jsSortBy_perm jtCmp F)
    have hF_sub_db : ∀ e ∈ F, e ∈ db := by
      intro e he
      rw [hFdef] at he
      exact List.mem_of_mem_filter he
    have hF_nodup : (F.map QueueEntry.id).Nodup := by
      have hsub : List.Sublist F db := by
        rw [hFdef]
        exact List.filter_sublist db
      exact List.Nodup.sublist (hsub.map QueueEntry.id) hnodup
    have hs1_nodup : (sorted1.map QueueEntry.id).Nodup :=
      ((hperm_s1.map QueueEntry.id).nodup_iff).mpr hF_nodup
    have hs1_ne : sorted1 ≠ [] := by
      intro h0
      apply hemp
      have hlen := hperm_s1.length_eq
      rw [h0] at hlen
      rw [← List.length_eq_zero]
      simpa using hlen.symm
    have hs1_sorted : sorted1.Pairwise bucketLe := by
      rw [hs1def]
      exact jsSortBy_bucket_sorted _
    have hsymm_jt : Symmetric fun a b : QueueEntry =>
        a.joiningTime ≠ b.joiningTime := by
      intro a b hab
      exact fun e => hab e.symm
    have hsymm_hd : Symmetric fun a b : QueueEntry =>
        ¬(isHead a ∧ isHead b) := by
      intro a b hab hc
      exact hab ⟨hc.2, hc.1⟩
    have hs1_jt : sorted1.Pairwise fun a b => a.joiningTime ≠ b.joiningTime :=
      (hperm_s1.pairwise_iff fun hx => hsymm_jt hx).mpr hjt
    have hs1_hd : sorted1.Pairwise fun a b => ¬(isHead a ∧ isHead b) :=
      (hperm_s1.pairwise_iff fun hx => hsymm_hd hx).mpr hhead
    have hmapf : sorted1.map
        (fun e => (changed1.find? fun u => u.id == e.id).getD e) =
        primeList now vid s rc.duration h.helperId 1 sorted1 := by
      refine map_find_eq_primeList now vid s rc.duration h.helperId changed1
        sorted1 1 hs1_nodup ?_ ?_
      · intro p hp h2
        rw [hc1def]
        refine List.mem_map_of_mem Prod.fst (List.mem_filter.mpr ⟨?_, h2⟩)
        rw [hp1def]
        exact hp
      · intro u hu q hq hue
        rw [hc1def] at hu
        obtain ⟨⟨pa, pb⟩, hpf, hpu⟩ := List.mem_map.mp hu
        have hpa : pa = u := hpu
        have hp2 : pb = true := by
          have := (List.mem_filter.mp hpf).2
          simpa using this
        have hpp : (pa, pb) ∈ pairs1 := (List.mem_filter.mp hpf).1
        rw [hpa, hp2] at hpp
        rw [hp1def] at hpp
        exact hpp
    have hpre : ∀ e ∈ db,
        ((changed1.find? fun u => u.id == e.id).getD e).vendorId = e.vendorId ∧
        ((changed1.find? fun u => u.id == e.id).getD e).status = e.status ∧
        ((changed1.find? fun u => u.id == e.id).getD e).createdAt = e.createdAt ∧
        ((changed1.find? fun u => u.id == e.id).getD e).serviceId =
          e.serviceId := by
      intro e he
      cases hfind : changed1.find? fun u => u.id == e.id with
      | none => exact ⟨rfl, rfl, rfl, rfl⟩
      | some u =>
        simp only [Option.getD_some]
        have humem : u ∈ changed1 := List.mem_of_find?_eq_some hfind
        have hue0 := List.find?_some hfind
        have hue1 : (u.id == e.id) = true := hue0
        have hue : u.id = e.id := eq_of_beq hue1
        rw [hc1def] at humem
        obtain ⟨⟨pa, pb⟩, hpf, hpu⟩ := List.mem_map.mp humem
        have hpa : pa = u := hpu
        have hpp : (pa, pb) ∈ pairs1 := (List.mem_filter.mp hpf).1
        rw [hp1def] at hpp
        obtain ⟨pos', q', hq', hpe⟩ := mem_assignFrom hpp
        have hq'fields := assignEntry_fields now vid s rc.duration h.helperId
          pos' q'
        have hpa2 : pa = (assignEntry now vid s rc.duration h.helperId
            pos' q').1 := congrArg Prod.fst hpe
        have hq'db : q' ∈ db := hF_sub_db q' (hperm_s1.subset hq')
        have huq : u.id = q'.id := by
          rw [← hpa, hpa2]
          exact hq'fields.1
        have hq'e : q' = e := List.inj_on_of_nodup_map hnodup hq'db he
          (huq.symm.trans hue)
        subst hq'e
        rw [← hpa, hpa2]
        exact ⟨hq'fields.2.2.2.2.1, hq'fields.2.1, hq'fields.2.2.2.1,
          hq'fields.2.2.2.2.2.1⟩
    have hF2 : windowFilter vid t0 t1 (applyUpdates db changed1) =
        F.map (fun e => (changed1.find? fun u => u.id == e.id).getD e) := by
      have hw := windowFilter_map vid t0 t1 db
        (fun e => (changed1.find? fun u => u.id == e.id).getD e)
        (fun e he => ⟨(hpre e he).1, (hpre e he).2.1, (hpre e he).2.2.1⟩)
      rw [hFdef]
      exact hw
    have hF2perm : (windowFilter vid t0 t1 (applyUpdates db changed1)).Perm
        (primeList now vid s rc.duration h.helperId 1 sorted1) := by
      rw [hF2, ← hmapf]
      exact hperm_s1.symm.map _
    have hne2 : windowFilter vid t0 t1 (applyUpdates db changed1) ≠ [] := by
      rw [hF2]
      intro h0
      exact hemp (List.map_eq_nil_iff.mp h0)
    have hsid2 : ∀ q ∈ windowFilter vid t0 t1 (applyUpdates db changed1),
        q.serviceId = s := by
      rw [hF2]
      intro q hq
      obtain ⟨e, he, rfl⟩ := List.mem_map.mp hq
      rw [(hpre e (hF_sub_db e he)).2.2.2]
      exact hsid e he
    obtain ⟨nf2, hrun2⟩ := restructure_single_run (applyUpdates db changed1)
      vendors rateCards vid t0 t1 now vendor h s rc hv hhelp hcap hrc hne2 hsid2
    have hsorted2_eq : jsSortBy bucketCmp (bucketOrder [h]
        (jsSortBy jtCmp (windowFilter vid t0 t1 (applyUpdates db changed1)))) =
        primeList now vid s rc.duration h.helperId 1 sorted1 := by
      refine resorted_prime now vid s rc.duration h.helperId sorted1 hs1_ne
        hs1_sorted hs1_jt hs1_hd _ ?_ (jsSortBy_bucket_sorted _)
      exact ((jsSortBy_perm bucketCmp _).trans (bucketOrder_perm [h] _)).trans
        ((jsSortBy_perm jtCmp _).trans hF2perm)
    rw [hsorted2_eq] at hrun2
    rw [assignFrom_no_change] at hrun2
    rw [filter_snd_of_false] at hrun2
    rw [List.map_nil, List.length_nil, applyUpdates_nil] at hrun2
    exact ⟨applyUpdates db changed1, changed1.length, pairs1, nf1, _, nf2,
      hrun1, hrun2⟩

/-- C7 witness: on the five-entry lane of business `V` with its single
capable helper `H1` the first restructure commits and the second one
writes zero updates. -/
theorem C7_amended_witness :
    ∃ db1 c1 a1 n1 a2 n2,
      restructure laneHold3 [ownerV] [cardS] "V" 0 1000 600000 =
        .ok db1 c1 a1 n1 ∧
      restructure db1 [ownerV] [cardS] "V" 0 1000 600000 =
        .ok db1 0 a2 n2 :=
  C7_amended laneHold3 [ownerV] [cardS] "V" 0 1000 600000 ownerV
    ⟨"H1", .accepted, true, ["S"]⟩ "S" cardS (by decide) (by decide)
    (by decide) (by decide) (by decide) (by decide) (by decide) (by decide)

end QVuew
